import Mathlib

/-!
Verification of the data-processing pipeline of `projet_analyse`.

The development shallowly embeds the pipeline's data model and the
operations of `src/data_processor/cleaner.py`, `src/data_processor/aggregator.py`,
`src/data_processor/statistics.py`, `src/data_loader/data_validator.py` and
`src/utils/cache.py`.  Tables are ordered collections of named columns; a cell
is a rational number, a string, or the missing marker (pandas `NaN`).  All
numeric computation is exact rational arithmetic; comparisons against a
missing value are `false`, mirroring IEEE `NaN` comparison semantics used by
pandas masks.
-/

/- Batteries marks the arithmetic on `Rat` `@[irreducible]`; re-allow unfolding
locally so that concrete tables can be evaluated by `decide`. -/
attribute [local semireducible] Rat.mul Rat.inv Rat.add Rat.sub

namespace ProjetAnalyse

/-- A cell of a data frame: a numeric value, a string, or the missing marker
(pandas `NaN`). -/
inductive Val where
  | num (q : ℚ)
  | str (s : String)
  | missing
deriving DecidableEq, Repr

def Val.isMissing : Val → Bool
  | .missing => true
  | _ => false

def Val.toNum : Val → Option ℚ
  | .num q => some q
  | _ => none

/-- A named column with its pandas storage dtype (`"float64"`, `"object"`, ...). -/
structure Column where
  name : String
  dtype : String
  values : List Val
deriving DecidableEq, Repr

/-- A data frame: an ordered list of named columns of equal length. -/
structure Table where
  cols : List Column
deriving DecidableEq, Repr

namespace Table

def names (t : Table) : List String := t.cols.map (·.name)

def getCol (t : Table) (c : String) : Option Column :=
  t.cols.find? (fun col => col.name = c)

def colValues (t : Table) (c : String) : List Val :=
  ((t.getCol c).map (·.values)).getD []

def nrows (t : Table) : Nat :=
  match t.cols with
  | [] => 0
  | c :: _ => c.values.length

def ncols (t : Table) : Nat := t.cols.length

end Table

/-- The pandas dtypes selected by `select_dtypes(include=[np.number])`. -/
def numericDtypes : List String :=
  ["int64", "int32", "int16", "int8", "float64", "float32"]

def Column.isNumeric (c : Column) : Bool := c.dtype ∈ numericDtypes

/-- Dtypes selected by `select_dtypes(include=['object', 'category'])`. -/
def Column.isObjectLike (c : Column) : Bool :=
  c.dtype = "object" || c.dtype = "category"

def Table.numericColNames (t : Table) : List String :=
  (t.cols.filter Column.isNumeric).map (·.name)

/-- The non-missing numeric entries of a column, in order (pandas `dropna`
for a numeric column). -/
def numsOf (vs : List Val) : List ℚ := vs.filterMap Val.toNum

def countMissing (vs : List Val) : Nat := (vs.filter Val.isMissing).length

def countNonMissing (vs : List Val) : Nat := (vs.filter (fun v => ¬ v.isMissing)).length

/-- Stable insertion (ascending) for rationals. -/
def insertAscQ (x : ℚ) : List ℚ → List ℚ
  | [] => [x]
  | y :: ys => if y ≤ x then y :: insertAscQ x ys else x :: y :: ys

/-- Ascending sort of rationals (used for quantiles and medians). -/
def sortAscQ : List ℚ → List ℚ
  | [] => []
  | x :: xs => insertAscQ x (sortAscQ xs)

/-- pandas `Series.quantile(q)` with the default linear interpolation, on an
already sorted non-empty list: position `h = q·(n-1)`, result
`x⌊h⌋ + (h-⌊h⌋)·(x⌊h⌋₊₁ - x⌊h⌋)`. -/
def quantileSorted (xs : List ℚ) (q : ℚ) : ℚ :=
  let h : ℚ := q * ((xs.length : ℚ) - 1)
  let i : Nat := h.floor.toNat
  let lo := xs.getD i 0
  let hi := xs.getD (i + 1) lo
  lo + (h - (h.floor : ℚ)) * (hi - lo)

/-- `Series.quantile` of a column: missing values are skipped; an empty
column yields `NaN` (modelled as `none`). -/
def quantileOpt (vs : List Val) (q : ℚ) : Option ℚ :=
  let xs := sortAscQ (numsOf vs)
  if xs.isEmpty then none else some (quantileSorted xs q)

/-! ### Cleaner: outlier removal (`cleaner.py`, `remove_outliers`) -/

/-- `settings.OUTLIER_THRESHOLD` (config.py). -/
def OUTLIER_THRESHOLD : ℚ := 3 / 2

/-- `settings.ZSCORE_THRESHOLD` (config.py). -/
def ZSCORE_THRESHOLD : ℚ := 3

inductive OutlierMethod where
  | iqr
  | zscore
deriving DecidableEq

/-- The boolean mask of `_remove_outliers_iqr`:
`(df[column] >= Q1 - t*IQR) & (df[column] <= Q3 + t*IQR)`.
A missing cell compares `false` with anything; if the column has no numeric
entries the quantiles are `NaN` and every comparison is `false`. -/
def iqrKeep (thr : ℚ) (vs : List Val) : List Bool :=
  match quantileOpt vs (1 / 4), quantileOpt vs (3 / 4) with
  | some q1, some q3 =>
      let iqr := q3 - q1
      let lo := q1 - thr * iqr
      let hi := q3 + thr * iqr
      vs.map (fun v =>
        match v with
        | .num x => decide (lo ≤ x ∧ x ≤ hi)
        | _ => false)
  | _, _ => vs.map (fun _ => false)

/-- The boolean mask of `_remove_outliers_zscore`:
`|x - mean| / std < t` with the sample standard deviation (`ddof = 1`).
Squaring both sides keeps the computation rational: for `std > 0`,
`|x-m|/s < t ↔ (x-m)² · (n-1) < t² · Σ(x-m)²`.  When `n ≤ 1` or the variance
is zero the z-scores are `NaN` (or `0/0`), so every comparison is `false`. -/
def zscoreKeep (thr : ℚ) (vs : List Val) : List Bool :=
  let xs := numsOf vs
  if xs.length ≤ 1 then vs.map (fun _ => false)
  else
    let n : ℚ := (xs.length : ℚ)
    let m := xs.sum / n
    let ss := (xs.map (fun x => (x - m) ^ 2)).sum
    if ss = 0 then vs.map (fun _ => false)
    else vs.map (fun v =>
      match v with
      | .num x => decide ((x - m) ^ 2 * (n - 1) < thr ^ 2 * ss)
      | _ => false)

/-- Keep the rows whose mask entry is `true` (`df[mask]`). -/
def applyMask (mask : List Bool) (vs : List Val) : List Val :=
  ((mask.zip vs).filter (·.1)).map (·.2)

def Table.filterRows (t : Table) (mask : List Bool) : Table :=
  ⟨t.cols.map (fun c => { c with values := applyMask mask c.values })⟩

/-- `_remove_outliers_iqr(df, column)`. -/
def removeOutliersIqrCol (t : Table) (c : String) : Table :=
  t.filterRows (iqrKeep OUTLIER_THRESHOLD (t.colValues c))

/-- `_remove_outliers_zscore(df, column)`. -/
def removeOutliersZscoreCol (t : Table) (c : String) : Table :=
  t.filterRows (zscoreKeep ZSCORE_THRESHOLD (t.colValues c))

/-- `DataCleaner.remove_outliers(df, columns, method)`: the columns default
to the numeric columns and are processed **sequentially**, each filter
applied to the frame left by the previous filters. -/
def remove_outliers (t : Table) (columns : Option (List String))
    (method : OutlierMethod) : Table :=
  let cols := columns.getD t.numericColNames
  cols.foldl
    (fun acc c =>
      if c ∈ acc.names then
        match method with
        | .iqr => removeOutliersIqrCol acc c
        | .zscore => removeOutliersZscoreCol acc c
      else acc)
    t

theorem applyMask_length_le (mask : List Bool) (vs : List Val) :
    (applyMask mask vs).length ≤ vs.length := by
  have h1 : (applyMask mask vs).length ≤ (mask.zip vs).length := by
    unfold applyMask
    rw [List.length_map]
    exact List.length_filter_le _ _
  have h2 : (mask.zip vs).length ≤ vs.length := by
    rw [List.length_zip]; omega
  exact le_trans h1 h2

theorem nrows_filterRows_le (t : Table) (mask : List Bool) :
    (t.filterRows mask).nrows ≤ t.nrows := by
  cases t with
  | mk cols =>
    cases cols with
    | nil => simp [Table.filterRows, Table.nrows]
    | cons c cs =>
      simpa [Table.filterRows, Table.nrows] using applyMask_length_le mask c.values

theorem nrows_foldl_le (f : Table → String → Table)
    (hf : ∀ acc c, (f acc c).nrows ≤ acc.nrows) :
    ∀ (l : List String) (t : Table), (l.foldl f t).nrows ≤ t.nrows := by
  intro l
  induction l with
  | nil => intro t; simp
  | cons c cs ih =>
    intro t
    calc ((c :: cs).foldl f t).nrows = (cs.foldl f (f t c)).nrows := by rfl
      _ ≤ (f t c).nrows := ih (f t c)
      _ ≤ t.nrows := hf t c

/-- Example table for the outlier-removal order-dependence analysis: column
`a` has a single extreme value in row 5, column `b` has a moderate high value
`7.5` in row 0 and an extreme `50` in row 5. -/
def exC1 : Table := ⟨[
  ⟨"a", "float64", [.num 0, .num 0, .num 0, .num 0, .num 0, .num 100]⟩,
  ⟨"b", "float64", [.num (15 / 2), .num 1, .num 2, .num 3, .num 4, .num 50]⟩]⟩

/-- C1 (counterexample): the row set returned by the Cleaner's IQR outlier
removal **does** depend on the order in which the columns are processed.
Processing `["a", "b"]` drops rows 0 and 5 of `exC1` (after `a`'s filter
removes row 5, `b`'s quartiles are recomputed on the shrunken frame and its
tighter bounds also reject `b = 7.5`), while processing `["b", "a"]` drops
only row 5, so the results differ — the filters are sequential, not an
intersection of masks computed on the pre-removal table. -/
theorem remove_outliers_order_dependent_cex :
    remove_outliers exC1 (some ["a", "b"]) .iqr ≠
      remove_outliers exC1 (some ["b", "a"]) .iqr := by
  decide

/-- C1 (amended): `remove_outliers` applies the per-column filters
sequentially against a progressively shrinking frame, so the final row set
is in general order-dependent across columns (see the counterexample).
What does hold: (i) for a single selected column the filter is exactly the
IQR row mask computed on the pre-removal table, and (ii) outlier removal
never increases the row count, for either method and any column list. -/
theorem remove_outliers_sequential_spec :
    (∀ (t : Table) (c : String),
      remove_outliers t (some [c]) .iqr =
        if c ∈ t.names then
          t.filterRows (iqrKeep OUTLIER_THRESHOLD (t.colValues c))
        else t) ∧
    (∀ (t : Table) (columns : Option (List String)) (m : OutlierMethod),
      (remove_outliers t columns m).nrows ≤ t.nrows) := by
  constructor
  · intro t c
    simp only [remove_outliers, List.foldl]
    split
    · rfl
    · rfl
  · intro t columns m
    apply nrows_foldl_le
    intro acc c
    dsimp only
    split
    · cases m with
      | iqr => exact nrows_filterRows_le _ _
      | zscore => exact nrows_filterRows_le _ _
    · exact Nat.le_refl _

/-! ### Cleaner: missing-value imputation (`cleaner.py`, `impute_missing_values`) -/

/-- The `ImputationStrategy` enum of `cleaner.py`. -/
inductive ImputationStrategy where
  | mean
  | median
  | mode
  | constant
  | knn
  | forward_fill
  | backward_fill
deriving DecidableEq

/-- Codepoint-lexicographic comparison of character lists (the order Python
and numpy use on strings). -/
def charListLt : List Char → List Char → Bool
  | [], [] => false
  | [], _ :: _ => true
  | _ :: _, [] => false
  | a :: as, b :: bs => a.toNat < b.toNat || (a.toNat = b.toNat && charListLt as bs)

/-- String comparison by code points (same order as `String.lt`). -/
def strLtB (a b : String) : Bool := charListLt a.data b.data

/-- Total order used to break ties when several values are equally frequent
(numpy sorts the distinct values, so the smallest wins). -/
def valLtB : Val → Val → Bool
  | .num a, .num b => a < b
  | .str a, .str b => strLtB a b
  | .missing, .num _ => true
  | .missing, .str _ => true
  | .num _, .str _ => true
  | _, _ => false

def countVal (vs : List Val) (v : Val) : Nat :=
  (vs.filter (fun w => w = v)).length

/-- The most frequent non-missing value of a column, smallest value first on
ties (sklearn `SimpleImputer(strategy='most_frequent')`); `none` when every
entry is missing. -/
def modeOf (vs : List Val) : Option Val :=
  let nm := vs.filter (fun v => ¬ v.isMissing)
  nm.foldl
    (fun acc v =>
      match acc with
      | none => some v
      | some w =>
          if countVal nm w < countVal nm v ∨
              (countVal nm v = countVal nm w ∧ valLtB v w) then some v
          else some w)
    none

def fillMissingWith (v : Val) (vs : List Val) : List Val :=
  vs.map (fun w => if w.isMissing then v else w)

/-- `fillna(method='ffill')` on one column: each missing cell takes the last
preceding non-missing value; leading missing cells stay missing. -/
def forwardFillGo (last : Val) : List Val → List Val
  | [] => []
  | v :: vs =>
      if v.isMissing then last :: forwardFillGo last vs
      else v :: forwardFillGo v vs

def forwardFill (vs : List Val) : List Val := forwardFillGo .missing vs

/-- `fillna(method='bfill')` on one column. -/
def backwardFill (vs : List Val) : List Val := (forwardFill vs.reverse).reverse

/-- Arithmetic mean (`none` on an empty list). -/
def meanOf (xs : List ℚ) : Option ℚ :=
  if xs.isEmpty then none else some (xs.sum / (xs.length : ℚ))

/-- numpy median: middle element, or the mean of the two middle elements. -/
def medianOf (xs : List ℚ) : Option ℚ :=
  let s := sortAscQ xs
  let n := s.length
  if n = 0 then none
  else if n % 2 = 1 then some (s.getD (n / 2) 0)
  else some ((s.getD (n / 2 - 1) 0 + s.getD (n / 2) 0) / 2)

/-- Generic stable insertion w.r.t. a strict `lt`: the new element is placed
before the first entry not strictly smaller than it. -/
def insertByLt {α : Type} (lt : α → α → Bool) (x : α) : List α → List α
  | [] => [x]
  | y :: ys => if lt y x then y :: insertByLt lt x ys else x :: y :: ys

/-- Stable sort: sorting the tail first and inserting the head before equal
entries preserves the original order of ties. -/
def sortByLt {α : Type} (lt : α → α → Bool) : List α → List α
  | [] => []
  | x :: xs => insertByLt lt x (sortByLt lt xs)

/-- Squared nan-euclidean distance between rows `i` and `j` of the numeric
sub-frame handed to `KNNImputer` (sklearn scales by
`n_features / n_shared_features`; `none` when the rows share no feature).
Squared distances order neighbours exactly like the real distances. -/
def nanDist2 (sub : List (List Val)) (i j : Nat) : Option ℚ :=
  let sq := sub.filterMap (fun vs =>
    match (vs.getD i .missing).toNum, (vs.getD j .missing).toNum with
    | some a, some b => some ((a - b) ^ 2)
    | _, _ => none)
  if sq.isEmpty then none
  else some (((sub.length : ℚ) / (sq.length : ℚ)) * sq.sum)

/-- Neighbour ordering for `KNNImputer`: by distance, then by row index.
(sklearn's `argpartition` leaves the order of exactly tied distances
unspecified; row order is the deterministic rendering of that choice.) -/
def donorLt (a b : ℚ × Nat × ℚ) : Bool :=
  a.1 < b.1 || (a.1 == b.1 && a.2.1 < b.2.1)

/-- `KNNImputer(n_neighbors=5)` on one cell: mean of the target values of the
5 nearest donor rows (rows with a present target value and a defined
distance); the cell stays missing when no donor exists. -/
def knnFillCell (sub : List (List Val)) (target : List Val) (i : Nat) : Val :=
  let donors := (List.range target.length).filterMap (fun j =>
    if j = i then none
    else
      match (target.getD j .missing).toNum, nanDist2 sub i j with
      | some q, some d => some (d, j, q)
      | _, _ => none)
  let chosen := (sortByLt donorLt donors).take 5
  if chosen.isEmpty then .missing
  else .num ((chosen.map (fun t => t.2.2)).sum / (chosen.length : ℚ))

def knnFillCol (sub : List (List Val)) (target : List Val) : List Val :=
  (List.range target.length).map (fun i =>
    let v := target.getD i .missing
    if v.isMissing then knnFillCell sub target i else v)

/-- The per-column numeric imputation applied by `impute_missing_values` to
the numeric columns that contain missing values.  `constant` uses the sklearn
default numeric fill value `0`.  (sklearn drops a column whose entries are
all missing; such a column is left as-is here — no claim exercises it.) -/
def numericImpute (strategy : ImputationStrategy) (sub : List (List Val))
    (vs : List Val) : List Val :=
  match strategy with
  | .knn => knnFillCol sub vs
  | .forward_fill => forwardFill vs
  | .backward_fill => backwardFill vs
  | .mean => fillMissingWith ((meanOf (numsOf vs)).elim Val.missing Val.num) vs
  | .median => fillMissingWith ((medianOf (numsOf vs)).elim Val.missing Val.num) vs
  | .mode => fillMissingWith ((modeOf vs).getD .missing) vs
  | .constant => fillMissingWith (.num 0) vs

/-- `columns_with_missing`: the columns (among `columns`, default all) that
contain at least one missing value, in parameter order. -/
def columnsWithMissing (t : Table) (columns : Option (List String)) : List String :=
  (columns.getD t.names).filter (fun c => 0 < countMissing (t.colValues c))

/-- `numeric_cols`: the missing-containing columns with numeric dtype. -/
def imputeNumericCols (t : Table) (columns : Option (List String)) : List String :=
  (columnsWithMissing t columns).filter
    (fun c => ((t.getCol c).map Column.isNumeric).getD false)

/-- `categorical_cols`: the missing-containing columns with object/category
dtype. -/
def imputeCategoricalCols (t : Table) (columns : Option (List String)) : List String :=
  (columnsWithMissing t columns).filter
    (fun c => ((t.getCol c).map Column.isObjectLike).getD false)

/-- The numeric sub-frame `df_clean[numeric_cols]` handed to `KNNImputer`. -/
def knnSub (t : Table) (columns : Option (List String)) : List (List Val) :=
  (imputeNumericCols t columns).map (fun c => t.colValues c)

/-- The new values of one column under `impute_missing_values`: numeric
missing-containing columns get the selected strategy, object/category
missing-containing columns get most-frequent imputation, everything else is
untouched. -/
def imputeValues (t : Table) (strategy : ImputationStrategy)
    (columns : Option (List String)) (col : Column) : List Val :=
  if col.name ∈ imputeNumericCols t columns then
    numericImpute strategy (knnSub t columns) col.values
  else if col.name ∈ imputeCategoricalCols t columns then
    fillMissingWith ((modeOf col.values).getD .missing) col.values
  else col.values

/-- `DataCleaner.impute_missing_values(df, strategy, columns)`: only the
columns (among `columns`, default all) with at least one missing value are
touched; the numeric ones get the selected strategy, the object/category
ones **always** get most-frequent imputation — the strategy choice,
including forward/backward fill, only governs the numeric columns. -/
def impute_missing_values (t : Table) (strategy : ImputationStrategy)
    (columns : Option (List String)) : Table :=
  if (columnsWithMissing t columns).isEmpty then t
  else ⟨t.cols.map (fun col => { col with values := imputeValues t strategy columns col })⟩

theorem isEmpty_false_of_mem {α : Type} {l : List α} {c : α} (h : c ∈ l) :
    l.isEmpty = false := by
  cases l with
  | nil => cases h
  | cons a l => rfl

theorem getCol_map_values (t : Table) (g : Column → List Val) (c : String) :
    (Table.mk (t.cols.map (fun col => { col with values := g col }))).getCol c
      = (t.getCol c).map (fun col => { col with values := g col }) := by
  show (t.cols.map _).find? _ = _
  rw [List.find?_map]
  rfl

theorem getCol_name {t : Table} {c : String} {col : Column}
    (h : t.getCol c = some col) : col.name = c := by
  have := List.find?_some h
  simpa using this

theorem colValues_eq {t : Table} {c : String} {col : Column}
    (h : t.getCol c = some col) : t.colValues c = col.values := by
  simp [Table.colValues, h]

theorem colValues_of_none {t : Table} {c : String}
    (h : t.getCol c = none) : t.colValues c = [] := by
  simp [Table.colValues, h]

theorem objectLike_not_numeric {col : Column}
    (h : col.isObjectLike = true) : col.isNumeric = false := by
  have h' : col.dtype = "object" ∨ col.dtype = "category" := by
    simpa [Column.isObjectLike] using h
  rcases h' with h' | h' <;> simp [Column.isNumeric, numericDtypes, h']

theorem impute_colValues {t : Table} (s : ImputationStrategy)
    {columns : Option (List String)} {c : String} {col : Column}
    (h : t.getCol c = some col)
    (hne : (columnsWithMissing t columns).isEmpty = false) :
    (impute_missing_values t s columns).colValues c = imputeValues t s columns col := by
  unfold impute_missing_values
  rw [hne]
  simp only [Bool.false_eq_true, if_false, Table.colValues, getCol_map_values, h,
    Option.map_some]
  rfl

theorem imputeValues_not_touched {t : Table} {s : ImputationStrategy}
    {columns : Option (List String)} {col : Column}
    (hn : col.name ∉ columnsWithMissing t columns) :
    imputeValues t s columns col = col.values := by
  unfold imputeValues
  rw [if_neg, if_neg]
  · intro hmem
    exact hn (List.mem_filter.mp hmem).1
  · intro hmem
    exact hn (List.mem_filter.mp hmem).1

theorem impute_untouched {t : Table} (s : ImputationStrategy)
    (columns : Option (List String)) (c : String)
    (hc : c ∉ columnsWithMissing t columns) :
    (impute_missing_values t s columns).colValues c = t.colValues c := by
  by_cases hne : (columnsWithMissing t columns).isEmpty = true
  · unfold impute_missing_values
    rw [hne]
    simp
  · have hne' : (columnsWithMissing t columns).isEmpty = false :=
      Bool.eq_false_iff.mpr hne
    cases hcol : t.getCol c with
    | none =>
        unfold impute_missing_values
        rw [hne']
        simp only [Bool.false_eq_true, if_false, Table.colValues, getCol_map_values, hcol,
          Option.map_none]
        simp [Table.colValues, hcol]
    | some col =>
        rw [impute_colValues s hcol hne', colValues_eq hcol]
        exact imputeValues_not_touched (by rw [getCol_name hcol]; exact hc)

/-- Example table for the imputation analysis: one object column whose
forward fill and mode imputation disagree on the missing cell. -/
def exC6 : Table :=
  ⟨[⟨"cat", "object", [.str "a", .str "b", .missing, .str "a"]⟩]⟩

/-- C6 (counterexample): with the forward-fill strategy, the object column
`["a", "b", missing, "a"]` is imputed to `["a", "b", "a", "a"]` (mode
imputation — `"a"` is the most frequent value), not to the forward fill
`["a", "b", "b", "a"]`: the fill is **not** applied uniformly to
categorical columns. -/
theorem impute_ffill_categorical_cex :
    (impute_missing_values exC6 .forward_fill none).colValues "cat" ≠
      forwardFill (exC6.colValues "cat") := by
  decide

/-- C6 (amended): `impute_missing_values` touches only columns that contain
at least one missing value (and only those selected by the `columns`
parameter); object/category columns with missing values are **always**
imputed with the mode, for every strategy including forward/backward fill —
the forward/backward-fill uniform treatment applies only to the numeric
columns, which do receive the forward/backward fill. -/
theorem impute_missing_values_spec :
    (∀ (t : Table) (s : ImputationStrategy) (columns : Option (List String))
        (c : String),
       countMissing (t.colValues c) = 0 →
       (impute_missing_values t s columns).colValues c = t.colValues c) ∧
    (∀ (t : Table) (s : ImputationStrategy) (l : List String) (c : String),
       c ∉ l →
       (impute_missing_values t s (some l)).colValues c = t.colValues c) ∧
    (∀ (t : Table) (s : ImputationStrategy) (columns : Option (List String))
        (c : String) (col : Column),
       t.getCol c = some col → col.isObjectLike = true →
       0 < countMissing col.values → c ∈ columns.getD t.names →
       (impute_missing_values t s columns).colValues c =
         fillMissingWith ((modeOf col.values).getD .missing) col.values) ∧
    (∀ (t : Table) (columns : Option (List String)) (c : String) (col : Column),
       t.getCol c = some col → col.isNumeric = true →
       0 < countMissing col.values → c ∈ columns.getD t.names →
       (impute_missing_values t .forward_fill columns).colValues c =
           forwardFill col.values ∧
         (impute_missing_values t .backward_fill columns).colValues c =
           backwardFill col.values) := by
  have hmemCWM : ∀ (t : Table) (columns : Option (List String)) (c : String)
      (col : Column), t.getCol c = some col → 0 < countMissing col.values →
      c ∈ columns.getD t.names → c ∈ columnsWithMissing t columns := by
    intro t columns c col h hmiss hmem
    refine List.mem_filter.mpr ⟨hmem, ?_⟩
    rw [colValues_eq h]
    exact decide_eq_true hmiss
  refine ⟨?_, ?_, ?_, ?_⟩
  · intro t s columns c h0
    apply impute_untouched
    intro hmem
    have := (List.mem_filter.mp hmem).2
    rw [h0] at this
    simp at this
  · intro t s l c hc
    apply impute_untouched
    intro hmem
    exact hc (List.mem_filter.mp hmem).1
  · intro t s columns c col h hobj hmiss hmem
    have hcwm := hmemCWM t columns c col h hmiss hmem
    have hne := isEmpty_false_of_mem hcwm
    rw [impute_colValues s h hne]
    unfold imputeValues
    rw [getCol_name h, if_neg, if_pos]
    · refine List.mem_filter.mpr ⟨hcwm, ?_⟩
      rw [h]
      simpa using hobj
    · intro hmemN
      have hthis := (List.mem_filter.mp hmemN).2
      rw [h] at hthis
      have hnum : col.isNumeric = true := by simpa using hthis
      rw [objectLike_not_numeric hobj] at hnum
      cases hnum
  · intro t columns c col h hnum hmiss hmem
    have hcwm := hmemCWM t columns c col h hmiss hmem
    have hne := isEmpty_false_of_mem hcwm
    have hmemN : c ∈ imputeNumericCols t columns := by
      refine List.mem_filter.mpr ⟨hcwm, ?_⟩
      rw [h]
      simpa using hnum
    constructor
    · rw [impute_colValues .forward_fill h hne]
      unfold imputeValues
      rw [getCol_name h, if_pos hmemN]
      rfl
    · rw [impute_colValues .backward_fill h hne]
      unfold imputeValues
      rw [getCol_name h, if_pos hmemN]
      rfl

/-- Witness: on the concrete table `exC6`, the object column with missing
values is mode-imputed even under the `mean` strategy. -/
theorem impute_missing_values_spec_witness :
    (impute_missing_values exC6 .mean none).colValues "cat" =
      fillMissingWith
        ((modeOf [Val.str "a", Val.str "b", Val.missing, Val.str "a"]).getD .missing)
        [Val.str "a", Val.str "b", Val.missing, Val.str "a"] :=
  impute_missing_values_spec.2.2.1 exC6 .mean none "cat"
    ⟨"cat", "object", [Val.str "a", Val.str "b", Val.missing, Val.str "a"]⟩
    (by decide) (by decide) (by decide) (by decide)

/-! ### Aggregator (`aggregator.py`)

The aggregator's business functions evaluate `df['revenue'] = df['prix'] *
df['quantite']` on the **caller's** frame (no copy), so each of them is
embedded as a function returning its result **together with the caller's
view of the input frame after the call**. -/

/-- Remove adjacent duplicates of a sorted list. -/
def dedupAdj : List Val → List Val
  | [] => []
  | [v] => [v]
  | v :: w :: vs => if v = w then dedupAdj (w :: vs) else v :: dedupAdj (w :: vs)

/-- The distinct non-missing values of a column in ascending order: the group
keys produced by `df.groupby(column)` (pandas sorts keys and drops `NaN`
keys), also the value counted by `Series.nunique()`. -/
def groupKeys (vs : List Val) : List Val :=
  dedupAdj (sortByLt valLtB (vs.filter (fun v => ¬ v.isMissing)))

/-- The aggregation functions used by the aggregator's business methods. -/
inductive AggFun where
  | sum
  | mean
  | count
  | nunique
deriving DecidableEq

/-- One aggregation function on one group (pandas skips missing values;
`sum` of an empty group is `0`, `mean` of an empty group is `NaN`). -/
def aggApply : AggFun → List Val → Val
  | .sum, vs => .num (numsOf vs).sum
  | .mean, vs => (meanOf (numsOf vs)).elim Val.missing Val.num
  | .count, vs => .num (countNonMissing vs)
  | .nunique, vs => .num ((groupKeys vs).length)

/-- The sub-column of `vals` at the rows whose group key equals `k`. -/
def groupRows (keyVals vals : List Val) (k : Val) : List Val :=
  ((keyVals.zip vals).filter (fun p => p.1 = k)).map (·.2)

def Table.colIdx (t : Table) (c : String) : Option Nat :=
  t.names.findIdx? (fun n => n = c)

def Table.rowsList (t : Table) : List (List Val) :=
  (List.range t.nrows).map (fun i => t.cols.map (fun c => c.values.getD i .missing))

/-- Rebuild the column values from a reordered list of rows; column `i`
takes the `i`-th entry of every row. -/
def withRowsGo (i : Nat) (cols : List Column) (rows : List (List Val)) : List Column :=
  match cols with
  | [] => []
  | c :: cs =>
      { c with values := rows.map (fun r => r.getD i .missing) } :: withRowsGo (i + 1) cs rows

def Table.withRows (t : Table) (rows : List (List Val)) : Table :=
  ⟨withRowsGo 0 t.cols rows⟩

def rowKeyLt (k : Nat) (a b : List Val) : Bool :=
  valLtB (a.getD k .missing) (b.getD k .missing)

/-- `DataFrame.sort_values(by, ascending)` as pandas implements it
(`nargsort`): the rows with a present key are ordered by a stable
**ascending** argsort which is then **reversed** when `ascending=False`
(so equal keys come out in reversed row order); rows with a missing key are
appended at the end (`na_position='last'`).  pandas' default `quicksort` is
an introsort that degenerates to a stable insertion sort on the small
frames considered here.  (On a column name absent from the frame pandas
raises `KeyError`; every embedded call site guarantees presence, and the
identity is returned in that unreachable case.) -/
def sort_values (t : Table) (c : String) (ascending : Bool) : Table :=
  match t.colIdx c with
  | none => t
  | some k =>
      let rows := t.rowsList
      let present := rows.filter (fun r => !(r.getD k .missing).isMissing)
      let absent := rows.filter (fun r => (r.getD k .missing).isMissing)
      let sorted := sortByLt (rowKeyLt k) present
      t.withRows ((if ascending then sorted else sorted.reverse) ++ absent)

/-- `DataAggregator.group_by(df, group_column, agg_dict, sort_by, ascending)`
for a single group column and one aggregation function per value column (the
shape used by every business method, which yields flat column names without
a `MultiIndex`): group keys in ascending order, one aggregated column per
`agg_dict` entry, then `reset_index`, then an optional sort that is silently
skipped when `sort_by` is not among the result columns.  A missing group or
value column raises `KeyError` in pandas (`none` here). -/
def getAggCols (t : Table) : List (String × AggFun) → Option (List (String × AggFun × List Val))
  | [] => some []
  | p :: ps =>
      match t.getCol p.1, getAggCols t ps with
      | some col, some rest => some ((p.1, p.2, col.values) :: rest)
      | _, _ => none

def group_by (t : Table) (g : String) (spec : List (String × AggFun))
    (sortBy : Option String) (ascending : Bool) : Option Table :=
  match t.getCol g, getAggCols t spec with
  | some keyCol, some aggCols =>
    let keys := groupKeys keyCol.values
    let result : Table := ⟨
      ⟨g, keyCol.dtype, keys⟩ ::
        aggCols.map (fun a =>
          ⟨a.1, "float64", keys.map (fun k => aggApply a.2.1 (groupRows keyCol.values a.2.2 k))⟩)⟩
    match sortBy with
    | some sb => if sb ∈ result.names then some (sort_values result sb ascending) else some result
    | none => some result
  | _, _ => none

/-- `result.columns = [...]`: positional renaming of the columns. -/
def Table.renameCols (t : Table) (ns : List String) : Table :=
  ⟨(t.cols.zip ns).map (fun p => { p.1 with name := p.2 })⟩

/-- `df.head(n)`. -/
def Table.takeRows (t : Table) (n : Nat) : Table :=
  ⟨t.cols.map (fun c => { c with values := c.values.take n })⟩

/-- Column assignment `df[c] = vals`: overwrite in place, or append a new
column. -/
def Table.setCol (t : Table) (c : String) (dt : String) (vs : List Val) : Table :=
  if c ∈ t.names then
    ⟨t.cols.map (fun col =>
      if col.name = c then { col with dtype := dt, values := vs } else col)⟩
  else ⟨t.cols ++ [⟨c, dt, vs⟩]⟩

/-- Element-wise product `df['prix'] * df['quantite']` (missing in either
factor gives missing). -/
def zipMul (a b : List Val) : List Val :=
  List.zipWith
    (fun x y =>
      match x, y with
      | Val.num p, Val.num q => Val.num (p * q)
      | _, _ => Val.missing)
    a b

/-- `df['revenue'] = df['prix'] * df['quantite']` on the caller's frame. -/
def addRevenue (t : Table) : Table :=
  t.setCol "revenue" "float64" (zipMul (t.colValues "prix") (t.colValues "quantite"))

/-- The guard `if 'revenue' not in df.columns: df['revenue'] = ...` shared by
the sales/top-products/trend methods; `none` models the `KeyError` raised
when `prix` or `quantite` is also absent. -/
def ensureRevenue (t : Table) : Option Table :=
  if "revenue" ∈ t.names then some t
  else if "prix" ∈ t.names then
    if "quantite" ∈ t.names then some (addRevenue t) else none
  else none

/-- Python `int()` truncation (toward zero) of an exact rational. -/
def intTrunc (q : ℚ) : ℤ := Int.tdiv q.num (q.den : ℤ)

/-- The KPI record of `calculate_kpis`; `average_basket`/`average_price` can
be `NaN` (`missing`) on an empty frame, hence `Val`. -/
structure Kpis where
  revenue_total : ℚ
  transaction_count : Nat
  average_basket : Val
  total_quantity : ℤ
  average_price : Val
  unique_products : Nat
  unique_categories : Nat
  unique_cities : Nat
deriving DecidableEq, Repr

/-- `DataAggregator.calculate_kpis(df)`: writes `df['revenue']` into the
caller's frame whenever `prix` and `quantite` are present (overwriting any
existing `revenue` column), then reads every metric off that frame,
defaulting to zero when the needed column is absent.  Returns the KPI record
together with the caller's frame after the call. -/
def calculate_kpis (t : Table) : Kpis × Table :=
  let df := if "prix" ∈ t.names ∧ "quantite" ∈ t.names then addRevenue t else t
  (⟨if "revenue" ∈ df.names then (numsOf (df.colValues "revenue")).sum else 0,
    df.nrows,
    if "revenue" ∈ df.names then
      (meanOf (numsOf (df.colValues "revenue"))).elim Val.missing Val.num
    else .num 0,
    if "quantite" ∈ df.names then intTrunc (numsOf (df.colValues "quantite")).sum else 0,
    if "prix" ∈ df.names then
      (meanOf (numsOf (df.colValues "prix"))).elim Val.missing Val.num
    else .num 0,
    if "produit" ∈ df.names then (groupKeys (df.colValues "produit")).length else 0,
    if "categorie" ∈ df.names then (groupKeys (df.colValues "categorie")).length else 0,
    if "ville" ∈ df.names then (groupKeys (df.colValues "ville")).length else 0⟩,
   df)

/-- Round half to even at two decimals (`Series.round(2)`, idealized to
exact rationals). -/
def roundHalfEven (y : ℚ) : ℤ :=
  let f := y.floor
  let frac := y - (f : ℚ)
  if frac < 1 / 2 then f
  else if 1 / 2 < frac then f + 1
  else if f % 2 = 0 then f else f + 1

def round2 (x : ℚ) : ℚ := ((roundHalfEven (x * 100) : ℚ)) / 100

/-- `DataAggregator.calculate_sales_by_category(df)`: ensures `revenue` on
the caller's frame, groups by `categorie` (the requested sort by
`revenue_sum` is silently skipped because the aggregated column is named
`revenue`), renames the columns and appends the revenue share percentage.
Returns the result together with the caller's frame after the call. -/
def calculate_sales_by_category (t : Table) : Option (Table × Table) := do
  let df ← ensureRevenue t
  let gb ← group_by df "categorie"
    [("revenue", .sum), ("quantite", .sum), ("prix", .mean), ("produit", .count)]
    (some "revenue_sum") false
  let renamed := gb.renameCols
    ["categorie", "ca_total", "quantite_totale", "prix_moyen", "nb_transactions"]
  let caSum := (numsOf (renamed.colValues "ca_total")).sum
  let pct := (renamed.colValues "ca_total").map (fun v =>
    match v with
    | .num q => Val.num (round2 (q / caSum * 100))
    | _ => Val.missing)
  return (renamed.setCol "ca_percentage" "float64" pct, df)

/-- `DataAggregator.calculate_sales_by_city(df)`: same shape as
`calculate_sales_by_category` with the `ville` dimension and a distinct
product count (`nunique`); the requested sort by `revenue_sum` is again
silently skipped.  Returns the result together with the caller's frame
after the call. -/
def calculate_sales_by_city (t : Table) : Option (Table × Table) := do
  let df ← ensureRevenue t
  let gb ← group_by df "ville"
    [("revenue", .sum), ("quantite", .sum), ("produit", .nunique)]
    (some "revenue_sum") false
  let renamed := gb.renameCols
    ["ville", "ca_total", "quantite_totale", "nb_produits_uniques"]
  let caSum := (numsOf (renamed.colValues "ca_total")).sum
  let pct := (renamed.colValues "ca_total").map (fun v =>
    match v with
    | .num q => Val.num (round2 (q / caSum * 100))
    | _ => Val.missing)
  return (renamed.setCol "ca_percentage" "float64" pct, df)

/-- `DataAggregator.calculate_sales_by_source(df)`: same shape with the
`source` dimension and a transaction count.  Returns the result together
with the caller's frame after the call. -/
def calculate_sales_by_source (t : Table) : Option (Table × Table) := do
  let df ← ensureRevenue t
  let gb ← group_by df "source"
    [("revenue", .sum), ("quantite", .sum), ("produit", .count)]
    (some "revenue_sum") false
  let renamed := gb.renameCols
    ["source", "ca_total", "quantite_totale", "nb_transactions"]
  let caSum := (numsOf (renamed.colValues "ca_total")).sum
  let pct := (renamed.colValues "ca_total").map (fun v =>
    match v with
    | .num q => Val.num (round2 (q / caSum * 100))
    | _ => Val.missing)
  return (renamed.setCol "ca_percentage" "float64" pct, df)

/-- `DataAggregator.calculate_top_products(df, top_n, metric)`: ensures
`revenue` on the caller's frame, aggregates by product, renames, sorts
descending on the chosen metric and keeps the first `top_n` rows.  Returns
the result together with the caller's frame after the call. -/
def calculate_top_products (t : Table) (top_n : Nat) (metric : String) :
    Option (Table × Table) := do
  let df ← ensureRevenue t
  let gb ← group_by df "produit"
    [("revenue", .sum), ("quantite", .sum), ("prix", .mean)] none false
  let renamed := gb.renameCols ["produit", "ca_total", "quantite_totale", "prix_moyen"]
  let sortCol := if metric = "revenue" then "ca_total" else "quantite_totale"
  return ((sort_values renamed sortCol false).takeRows top_n, df)

/-! ### Frame-effect and KPI lemmas -/

theorem find?_append_of_none {α : Type} (p : α → Bool) (l₁ l₂ : List α)
    (h : l₁.find? p = none) : (l₁ ++ l₂).find? p = l₂.find? p := by
  induction l₁ with
  | nil => rfl
  | cons a l ih =>
      by_cases ha : p a
      · rw [List.find?_cons_of_pos _ ha] at h
        cases h
      · rw [List.find?_cons_of_neg _ (by simpa using ha)] at h
        rw [List.cons_append, List.find?_cons_of_neg _ (by simpa using ha)]
        exact ih h

theorem find?_append_first {α : Type} (p : α → Bool) (l₁ l₂ : List α) {a : α}
    (h : l₁.find? p = some a) : (l₁ ++ l₂).find? p = some a := by
  induction l₁ with
  | nil => cases h
  | cons x l ih =>
      by_cases hx : p x
      · rw [List.find?_cons_of_pos _ hx] at h
        rw [List.cons_append, List.find?_cons_of_pos _ hx]
        exact h
      · rw [List.find?_cons_of_neg _ (by simpa using hx)] at h
        rw [List.cons_append, List.find?_cons_of_neg _ (by simpa using hx)]
        exact ih h

theorem find?_setCol_replace (l : List Column) (c dt : String) (vs : List Val) :
    (l.map (fun col =>
        if col.name = c then { col with dtype := dt, values := vs } else col)).find?
        (fun col => col.name = c)
      = if c ∈ l.map (·.name) then some ⟨c, dt, vs⟩ else none := by
  induction l with
  | nil => rfl
  | cons col rest ih =>
      by_cases hc : col.name = c
      · rw [List.map_cons, if_pos hc,
          List.find?_cons_of_pos _ (by simpa using hc)]
        rw [List.map_cons]
        rw [if_pos (by rw [hc]; exact List.mem_cons_self _ _)]
        rw [← hc]
      · rw [List.map_cons, if_neg hc, List.find?_cons_of_neg _ (by simpa using hc), ih,
          List.map_cons]
        by_cases hmem : c ∈ rest.map (·.name)
        · rw [if_pos hmem, if_pos (List.mem_cons_of_mem _ hmem)]
        · rw [if_neg hmem, if_neg ?_]
          intro hcontra
          rcases List.mem_cons.mp hcontra with h | h
          · exact hc h.symm
          · exact hmem h

theorem colValues_setCol_self (t : Table) (c dt : String) (vs : List Val) :
    (t.setCol c dt vs).colValues c = vs := by
  unfold Table.setCol
  split
  case isTrue h =>
    simp only [Table.colValues, Table.getCol]
    rw [find?_setCol_replace]
    simp only [Table.names] at h
    rw [if_pos h]
    rfl
  case isFalse h =>
    simp only [Table.colValues, Table.getCol]
    rw [find?_append_of_none]
    · rw [List.find?_cons_of_pos _ (by simp)]
      rfl
    · rw [List.find?_eq_none]
      intro col hcol hpc
      exact h (List.mem_map.mpr ⟨col, hcol, by simpa using hpc⟩)

theorem getCol_setCol_other (t : Table) {c c' : String} (dt : String) (vs : List Val)
    (hne : c' ≠ c) : (t.setCol c dt vs).getCol c' = t.getCol c' := by
  unfold Table.setCol
  split
  · simp only [Table.getCol]
    induction t.cols with
    | nil => rfl
    | cons col rest ih =>
        by_cases hc : col.name = c
        · rw [List.map_cons, if_pos hc,
            List.find?_cons_of_neg _ (by simp [hc]; exact fun h => hne h.symm),
            List.find?_cons_of_neg _ (by simp [hc]; exact fun h => hne h.symm)]
          exact ih
        · rw [List.map_cons, if_neg hc]
          by_cases hc' : col.name = c'
          · rw [List.find?_cons_of_pos _ (by simpa using hc'),
              List.find?_cons_of_pos _ (by simpa using hc')]
          · rw [List.find?_cons_of_neg _ (by simpa using hc'),
              List.find?_cons_of_neg _ (by simpa using hc')]
            exact ih
  · simp only [Table.getCol]
    cases hfind : t.cols.find? (fun col => col.name = c') with
    | some col => exact find?_append_first _ _ _ hfind
    | none =>
        rw [find?_append_of_none _ _ _ hfind,
          List.find?_cons_of_neg _ (by simpa using fun h => hne h.symm)]
        rfl

theorem names_setCol (t : Table) (c dt : String) (vs : List Val) :
    (t.setCol c dt vs).names = if c ∈ t.names then t.names else t.names ++ [c] := by
  unfold Table.setCol
  split
  case isTrue h =>
    show (t.cols.map (fun col =>
        if col.name = c then { col with dtype := dt, values := vs } else col)).map
          (fun col => col.name)
      = t.cols.map (fun col => col.name)
    rw [List.map_map]
    apply List.map_congr_left
    intro col _
    by_cases hc : col.name = c
    · simp [hc]
    · simp [hc]
  case isFalse h =>
    show (t.cols ++ _).map (·.name) = t.cols.map (·.name) ++ [c]
    rw [List.map_append]
    rfl

theorem numsOf_map_num (l : List ℚ) : numsOf (l.map Val.num) = l := by
  induction l with
  | nil => rfl
  | cons q l ih => simp [numsOf, Val.toNum] at ih ⊢; exact ih

theorem zipMul_map_num (ps qs : List ℚ) :
    zipMul (ps.map Val.num) (qs.map Val.num) = (List.zipWith (· * ·) ps qs).map Val.num := by
  induction ps generalizing qs with
  | nil => cases qs <;> rfl
  | cons p ps ih =>
      cases qs with
      | nil => rfl
      | cons q qs => simpa [zipMul, List.zipWith] using ih qs

theorem length_zipMul (a b : List Val) : (zipMul a b).length = min a.length b.length := by
  simp [zipMul]

theorem nrows_setCol (t : Table) (c dt : String) (vs : List Val)
    (hcols : t.cols ≠ []) (hlen : vs.length = t.nrows) :
    (t.setCol c dt vs).nrows = t.nrows := by
  unfold Table.setCol
  cases hc : t.cols with
  | nil => exact absurd hc hcols
  | cons col rest =>
      split
      · show (Table.mk ((col :: rest).map _)).nrows = t.nrows
        by_cases h : col.name = c
        · simp only [Table.nrows, List.map_cons, if_pos h]
          rw [hlen]
          simp [Table.nrows, hc]
        · simp only [Table.nrows, List.map_cons, if_neg h]
          simp [Table.nrows, hc]
      · show (Table.mk ((col :: rest) ++ _)).nrows = t.nrows
        simp [Table.nrows, hc]

theorem meanOf_of_ne_nil {xs : List ℚ} (h : xs ≠ []) :
    meanOf xs = some (xs.sum / (xs.length : ℚ)) := by
  cases xs with
  | nil => exact absurd rfl h
  | cons x l => rfl

theorem ncols_addRevenue_of_not_mem {t : Table} (h : "revenue" ∉ t.names) :
    (addRevenue t).ncols = t.ncols + 1 := by
  unfold addRevenue Table.setCol
  rw [if_neg h]
  simp [Table.ncols]

/-- The concrete sales table `price = [10, 20]`, `quantity = [2, 1]` from the
spec's KPI scenario. -/
def exKpi : Table := ⟨[
  ⟨"prix", "float64", [.num 10, .num 20]⟩,
  ⟨"quantite", "int64", [.num 2, .num 1]⟩]⟩

/-- C2 (counterexample): `calculate_kpis` is **not** pure in its input frame:
on `exKpi` (which has `prix` and `quantite` but no `revenue` column) the
caller's table differs after the call — a `revenue` column was added. -/
theorem calculate_kpis_mutates_cex : (calculate_kpis exKpi).2 ≠ exKpi := by
  decide

theorem snd_of_guarded_pipeline {β : Type} {o : Option β} {F : β → Table}
    {df r dfout : Table}
    (h : o.bind (fun gb => some (F gb, df)) = some (r, dfout)) : dfout = df := by
  cases o with
  | none => cases h
  | some gb =>
      simp only [Option.some_bind, Option.some.injEq, Prod.mk.injEq] at h
      exact h.2.symm

/-- C2 (amended): the Aggregator's revenue-deriving methods are **not** pure
in their input frame.  `calculate_kpis` writes the `revenue` column
(`prix × quantite`) into the caller's table whenever `prix` and `quantite`
are both present — overwriting any existing `revenue` column — and leaves
the table unchanged otherwise; the guarded methods `calculate_sales_by_category`,
`calculate_sales_by_city`, `calculate_sales_by_source` and
`calculate_top_products` write the same `revenue` column into the caller's
table when `revenue` is absent and `prix`, `quantite` are present, and
leave the caller's table unchanged when `revenue` already exists. -/
theorem aggregator_frame_effects :
    (∀ t : Table, "prix" ∈ t.names → "quantite" ∈ t.names →
        (calculate_kpis t).2 = addRevenue t) ∧
    (∀ t : Table, ¬ ("prix" ∈ t.names ∧ "quantite" ∈ t.names) →
        (calculate_kpis t).2 = t) ∧
    (∀ t : Table, "prix" ∈ t.names → "quantite" ∈ t.names → "revenue" ∉ t.names →
        (calculate_kpis t).2 ≠ t) ∧
    (∀ t : Table, "revenue" ∈ t.names → ensureRevenue t = some t) ∧
    (∀ t : Table, "revenue" ∉ t.names → "prix" ∈ t.names → "quantite" ∈ t.names →
        ensureRevenue t = some (addRevenue t)) ∧
    (∀ (t r df : Table) (n : Nat) (metric : String), "revenue" ∈ t.names →
        calculate_top_products t n metric = some (r, df) → df = t) ∧
    (∀ (t r df : Table) (n : Nat) (metric : String),
        "revenue" ∉ t.names → "prix" ∈ t.names → "quantite" ∈ t.names →
        calculate_top_products t n metric = some (r, df) → df = addRevenue t) ∧
    (∀ t r df : Table, "revenue" ∈ t.names →
        calculate_sales_by_category t = some (r, df) → df = t) ∧
    (∀ t r df : Table, "revenue" ∉ t.names → "prix" ∈ t.names → "quantite" ∈ t.names →
        calculate_sales_by_category t = some (r, df) → df = addRevenue t) ∧
    (∀ t r df : Table, "revenue" ∈ t.names →
        calculate_sales_by_city t = some (r, df) → df = t) ∧
    (∀ t r df : Table, "revenue" ∉ t.names → "prix" ∈ t.names → "quantite" ∈ t.names →
        calculate_sales_by_city t = some (r, df) → df = addRevenue t) ∧
    (∀ t r df : Table, "revenue" ∈ t.names →
        calculate_sales_by_source t = some (r, df) → df = t) ∧
    (∀ t r df : Table, "revenue" ∉ t.names → "prix" ∈ t.names → "quantite" ∈ t.names →
        calculate_sales_by_source t = some (r, df) → df = addRevenue t) := by
  have h1 : ∀ t : Table, "prix" ∈ t.names → "quantite" ∈ t.names →
      (calculate_kpis t).2 = addRevenue t := by
    intro t hp hq
    unfold calculate_kpis
    rw [if_pos ⟨hp, hq⟩]
  have h4 : ∀ t : Table, "revenue" ∈ t.names → ensureRevenue t = some t := by
    intro t hr
    unfold ensureRevenue
    rw [if_pos hr]
  have h5 : ∀ t : Table, "revenue" ∉ t.names → "prix" ∈ t.names →
      "quantite" ∈ t.names → ensureRevenue t = some (addRevenue t) := by
    intro t hr hp hq
    unfold ensureRevenue
    rw [if_neg hr, if_pos hp, if_pos hq]
  refine ⟨h1, ?_, ?_, h4, h5, ?_, ?_, ?_, ?_, ?_, ?_, ?_, ?_⟩
  · intro t hnot
    unfold calculate_kpis
    rw [if_neg hnot]
  · intro t hp hq hr heq
    have h2 := h1 t hp hq
    rw [heq] at h2
    have h3 : t.ncols = t.ncols + 1 := by
      conv_lhs => rw [h2]
      exact ncols_addRevenue_of_not_mem hr
    omega
  · intro t r df n metric hr h
    unfold calculate_top_products at h
    rw [h4 t hr] at h
    simp only [Option.pure_def, Option.bind_eq_bind, Option.some_bind] at h
    exact snd_of_guarded_pipeline h
  · intro t r df n metric hr hp hq h
    unfold calculate_top_products at h
    rw [h5 t hr hp hq] at h
    simp only [Option.pure_def, Option.bind_eq_bind, Option.some_bind] at h
    exact snd_of_guarded_pipeline h
  · intro t r df hr h
    unfold calculate_sales_by_category at h
    rw [h4 t hr] at h
    simp only [Option.pure_def, Option.bind_eq_bind, Option.some_bind] at h
    exact snd_of_guarded_pipeline h
  · intro t r df hr hp hq h
    unfold calculate_sales_by_category at h
    rw [h5 t hr hp hq] at h
    simp only [Option.pure_def, Option.bind_eq_bind, Option.some_bind] at h
    exact snd_of_guarded_pipeline h
  · intro t r df hr h
    unfold calculate_sales_by_city at h
    rw [h4 t hr] at h
    simp only [Option.pure_def, Option.bind_eq_bind, Option.some_bind] at h
    exact snd_of_guarded_pipeline h
  · intro t r df hr hp hq h
    unfold calculate_sales_by_city at h
    rw [h5 t hr hp hq] at h
    simp only [Option.pure_def, Option.bind_eq_bind, Option.some_bind] at h
    exact snd_of_guarded_pipeline h
  · intro t r df hr h
    unfold calculate_sales_by_source at h
    rw [h4 t hr] at h
    simp only [Option.pure_def, Option.bind_eq_bind, Option.some_bind] at h
    exact snd_of_guarded_pipeline h
  · intro t r df hr hp hq h
    unfold calculate_sales_by_source at h
    rw [h5 t hr hp hq] at h
    simp only [Option.pure_def, Option.bind_eq_bind, Option.some_bind] at h
    exact snd_of_guarded_pipeline h

theorem ne_nil_of_mem_names {t : Table} {c : String} (h : c ∈ t.names) :
    t.cols ≠ [] := by
  intro hnil
  rw [Table.names, hnil] at h
  cases h

theorem mem_names_addRevenue (t : Table) : "revenue" ∈ (addRevenue t).names := by
  unfold addRevenue
  rw [names_setCol]
  by_cases h : "revenue" ∈ t.names
  · rw [if_pos h]; exact h
  · rw [if_neg h]; exact List.mem_append_right _ (List.mem_singleton.mpr rfl)

/-- C3: on a frame with complete `prix` and `quantite` columns,
`calculate_kpis` returns `revenue_total = Σ prix·quantite`,
`transaction_count` = row count, and (on a non-empty frame)
`average_basket = revenue_total / row count`; when the needed input columns
are absent the corresponding metrics are 0 (or 0.0) instead of an error. -/
theorem calculate_kpis_values :
    (∀ (t : Table) (ps qs : List ℚ),
       "prix" ∈ t.names → "quantite" ∈ t.names →
       t.colValues "prix" = ps.map Val.num →
       t.colValues "quantite" = qs.map Val.num →
       ps.length = t.nrows → qs.length = t.nrows →
       (calculate_kpis t).1.revenue_total = (List.zipWith (· * ·) ps qs).sum ∧
         (calculate_kpis t).1.transaction_count = t.nrows ∧
         (t.nrows ≠ 0 →
           (calculate_kpis t).1.average_basket =
             Val.num ((List.zipWith (· * ·) ps qs).sum / (t.nrows : ℚ)))) ∧
    (∀ t : Table, "revenue" ∉ t.names →
       ¬ ("prix" ∈ t.names ∧ "quantite" ∈ t.names) →
       (calculate_kpis t).1.revenue_total = 0 ∧
         (calculate_kpis t).1.average_basket = Val.num 0) ∧
    (∀ t : Table, "quantite" ∉ t.names →
       (calculate_kpis t).1.total_quantity = 0) ∧
    (∀ t : Table, "prix" ∉ t.names →
       (calculate_kpis t).1.average_price = Val.num 0) := by
  refine ⟨?_, ?_, ?_, ?_⟩
  · intro t ps qs hpm hqm hp hq hpl hql
    have hrev := mem_names_addRevenue t
    have hvals : (addRevenue t).colValues "revenue"
        = (List.zipWith (· * ·) ps qs).map Val.num := by
      unfold addRevenue
      rw [colValues_setCol_self, hp, hq, zipMul_map_num]
    have hlen2 : (List.zipWith (· * ·) ps qs).length = t.nrows := by
      rw [List.length_zipWith, hpl, hql]
      exact Nat.min_self _
    have hnrows : (addRevenue t).nrows = t.nrows := by
      unfold addRevenue
      apply nrows_setCol _ _ _ _ (ne_nil_of_mem_names hpm)
      rw [length_zipMul, hp, hq]
      simp [hpl, hql]
    simp only [calculate_kpis]
    have hcond : "prix" ∈ t.names ∧ "quantite" ∈ t.names := ⟨hpm, hqm⟩
    rw [if_pos hcond]
    refine ⟨?_, ?_, ?_⟩
    · rw [if_pos hrev]
      rw [hvals, numsOf_map_num]
    · exact hnrows
    · intro hn
      rw [if_pos hrev, hvals, numsOf_map_num]
      have hne : List.zipWith (· * ·) ps qs ≠ [] := by
        intro hnil
        rw [hnil] at hlen2
        exact hn hlen2.symm
      rw [meanOf_of_ne_nil hne, hlen2]
      rfl
  · intro t hr hnot
    simp only [calculate_kpis]
    rw [if_neg hnot]
    constructor
    · rw [if_neg hr]
    · rw [if_neg hr]
  · intro t hq
    simp only [calculate_kpis]
    by_cases hcond : "prix" ∈ t.names ∧ "quantite" ∈ t.names
    · exact absurd hcond.2 hq
    · rw [if_neg hcond, if_neg hq]
  · intro t hp
    simp only [calculate_kpis]
    by_cases hcond : "prix" ∈ t.names ∧ "quantite" ∈ t.names
    · exact absurd hcond.1 hp
    · rw [if_neg hcond, if_neg hp]

/-- Witness: the KPI scenario `price = [10, 20]`, `quantity = [2, 1]` gives
`revenue_total = 40`, `transaction_count = 2`, `average_basket = 20`. -/
theorem calculate_kpis_values_witness :
    (calculate_kpis exKpi).1.revenue_total = 40 ∧
      (calculate_kpis exKpi).1.transaction_count = 2 ∧
      (calculate_kpis exKpi).1.average_basket = Val.num 20 := by
  have h := calculate_kpis_values.1 exKpi [10, 20] [2, 1]
    (by decide) (by decide) (by decide) (by decide) (by decide) (by decide)
  exact ⟨h.1.trans (by decide), h.2.1.trans (by decide),
    (h.2.2 (by decide)).trans (by decide)⟩

/-! ### Correctness of the stable insertion sort -/

theorem mem_insertByLt {α : Type} {lt : α → α → Bool} {x z : α} {l : List α}
    (h : z ∈ insertByLt lt x l) : z = x ∨ z ∈ l := by
  induction l with
  | nil => simpa [insertByLt] using h
  | cons y ys ih =>
      rw [insertByLt] at h
      split at h
      · rcases List.mem_cons.mp h with rfl | h'
        · exact Or.inr (List.mem_cons_self _ _)
        · rcases ih h' with h'' | h''
          · exact Or.inl h''
          · exact Or.inr (List.mem_cons_of_mem _ h'')
      · rcases List.mem_cons.mp h with rfl | h'
        · exact Or.inl rfl
        · exact Or.inr h'

theorem perm_insertByLt {α : Type} (lt : α → α → Bool) (x : α) (l : List α) :
    List.Perm (insertByLt lt x l) (x :: l) := by
  induction l with
  | nil => exact List.Perm.refl _
  | cons y ys ih =>
      rw [insertByLt]
      split
      · exact (ih.cons y).trans (List.Perm.swap x y ys)
      · exact List.Perm.refl _

theorem perm_sortByLt {α : Type} (lt : α → α → Bool) (l : List α) :
    List.Perm (sortByLt lt l) l := by
  induction l with
  | nil => exact List.Perm.refl _
  | cons x xs ih => exact (perm_insertByLt lt x (sortByLt lt xs)).trans (ih.cons x)

theorem pairwise_insertByLt {α : Type} (lt : α → α → Bool)
    (H1 : ∀ a b, lt a b = true → lt b a = false)
    (H2 : ∀ a b c, lt a c = true → lt a b = true ∨ lt b c = true)
    (x : α) (l : List α) (hl : l.Pairwise (fun a b => lt b a = false)) :
    (insertByLt lt x l).Pairwise (fun a b => lt b a = false) := by
  induction l with
  | nil => simp [insertByLt]
  | cons y ys ih =>
      rw [insertByLt]
      rcases List.pairwise_cons.mp hl with ⟨hy, hys⟩
      split
      case isTrue hlt =>
        refine List.pairwise_cons.mpr ⟨?_, ih hys⟩
        intro z hz
        rcases mem_insertByLt hz with rfl | hz'
        · exact H1 _ _ hlt
        · exact hy z hz'
      case isFalse hlt =>
        refine List.pairwise_cons.mpr ⟨?_, hl⟩
        intro z hz
        rcases List.mem_cons.mp hz with rfl | hz'
        · exact Bool.eq_false_iff.mpr hlt
        · cases hzx : lt z x
          · rfl
          · rcases H2 z y x hzx with h' | h'
            · rw [hy z hz'] at h'
              cases h'
            · rw [Bool.eq_false_iff.mpr hlt] at h'
              cases h'

theorem pairwise_sortByLt {α : Type} (lt : α → α → Bool)
    (H1 : ∀ a b, lt a b = true → lt b a = false)
    (H2 : ∀ a b c, lt a c = true → lt a b = true ∨ lt b c = true)
    (l : List α) :
    (sortByLt lt l).Pairwise (fun a b => lt b a = false) := by
  induction l with
  | nil => simp [sortByLt]
  | cons x xs ih => exact pairwise_insertByLt lt H1 H2 x _ ih

theorem charListLt_asymm : ∀ a b : List Char,
    charListLt a b = true → charListLt b a = false
  | [], [] => by simp [charListLt]
  | [], _ :: _ => fun _ => rfl
  | _ :: _, [] => by simp [charListLt]
  | x :: as, y :: bs => by
      intro h
      simp only [charListLt, Bool.or_eq_true, Bool.and_eq_true, decide_eq_true_eq] at h
      rcases h with h | ⟨he, hrec⟩
      · have h1 : decide (y.toNat < x.toNat) = false := by simp; omega
        have h2 : decide (y.toNat = x.toNat) = false := by simp; omega
        simp [charListLt, h1, h2]
      · have h1 : decide (y.toNat < x.toNat) = false := by simp; omega
        simp [charListLt, h1, he.symm, charListLt_asymm as bs hrec]

theorem charListLt_or : ∀ a b c : List Char,
    charListLt a c = true → charListLt a b = true ∨ charListLt b c = true
  | [], [], c => fun h => Or.inr h
  | [], _ :: _, _ => fun _ => Or.inl rfl
  | _ :: _, [], c => fun h => by
      cases c with
      | nil => simp [charListLt] at h
      | cons z cs => exact Or.inr rfl
  | x :: as, y :: bs, c => fun h => by
      cases c with
      | nil => simp [charListLt] at h
      | cons z cs =>
          simp only [charListLt, Bool.or_eq_true, Bool.and_eq_true,
            decide_eq_true_eq] at h ⊢
          rcases h with h | ⟨he, hrec⟩
          · rcases Nat.lt_or_ge x.toNat y.toNat with h1 | h1
            · exact Or.inl (Or.inl h1)
            · exact Or.inr (Or.inl (Nat.lt_of_le_of_lt h1 h))
          · rcases Nat.lt_or_ge x.toNat y.toNat with h1 | h1
            · exact Or.inl (Or.inl h1)
            · rcases Nat.lt_or_ge y.toNat x.toNat with h2 | h2
              · exact Or.inr (Or.inl (by omega))
              · have hxy : x.toNat = y.toNat := by omega
                rcases charListLt_or as bs cs hrec with h3 | h3
                · exact Or.inl (Or.inr ⟨hxy, h3⟩)
                · exact Or.inr (Or.inr ⟨by omega, h3⟩)

theorem valLtB_asymm : ∀ a b : Val, valLtB a b = true → valLtB b a = false
  | .num a, .num b => by
      intro h
      simp only [valLtB, decide_eq_true_eq] at h
      simp only [valLtB, decide_eq_false_iff_not]
      exact not_lt.mpr h.le
  | .str a, .str b => fun h => charListLt_asymm _ _ h
  | .missing, .num _ => fun _ => rfl
  | .missing, .str _ => fun _ => rfl
  | .num _, .str _ => fun _ => rfl
  | .num _, .missing => fun h => Bool.noConfusion h
  | .str _, .num _ => fun h => Bool.noConfusion h
  | .str _, .missing => fun h => Bool.noConfusion h
  | .missing, .missing => fun h => Bool.noConfusion h

theorem valLtB_or : ∀ a b c : Val,
    valLtB a c = true → valLtB a b = true ∨ valLtB b c = true
  | .num a, b, .num c => fun h => by
      cases b with
      | num q =>
          simp only [valLtB, decide_eq_true_eq] at h ⊢
          rcases lt_or_le a q with h1 | h1
          · exact Or.inl h1
          · exact Or.inr (lt_of_le_of_lt h1 h)
      | str s => exact Or.inl rfl
      | missing => exact Or.inr rfl
  | .str a, b, .str c => fun h => by
      cases b with
      | num q => exact Or.inr rfl
      | str s => exact charListLt_or _ _ _ h
      | missing => exact Or.inr rfl
  | .num a, b, .str c => fun h => by
      cases b with
      | num q => exact Or.inr rfl
      | str s => exact Or.inl rfl
      | missing => exact Or.inr rfl
  | .missing, b, .num c => fun h => by
      cases b with
      | num q => exact Or.inl rfl
      | str s => exact Or.inl rfl
      | missing => exact Or.inr rfl
  | .missing, b, .str c => fun h => by
      cases b with
      | num q => exact Or.inl rfl
      | str s => exact Or.inl rfl
      | missing => exact Or.inr rfl
  | .num _, _, .missing => fun h => Bool.noConfusion h
  | .str _, _, .num _ => fun h => Bool.noConfusion h
  | .str _, _, .missing => fun h => Bool.noConfusion h
  | .missing, _, .missing => fun h => Bool.noConfusion h

/-! ### Top products (C8) -/

/-- Two products with the same total revenue (10 each), aggregated in the
order `p`, `q` (groupby sorts product names ascending). -/
def exC8 : Table := ⟨[
  ⟨"produit", "object", [.str "p", .str "q"]⟩,
  ⟨"prix", "float64", [.num 10, .num 5]⟩,
  ⟨"quantite", "int64", [.num 1, .num 2]⟩]⟩

/-- C8 (counterexample): on `exC8` the aggregation order of the products is
`[p, q]` and both have total revenue 10 (a tie on the ranking metric), yet
`calculate_top_products` returns them in the order `[q, p]` — the ties are
**not** broken by the original aggregation order: pandas
`sort_values(ascending=False)` reverses a stable ascending order, so tied
rows come out in reversed order. -/
theorem calculate_top_products_tie_order_cex :
    ((ensureRevenue exC8).bind (fun df =>
        group_by df "produit"
          [("revenue", .sum), ("quantite", .sum), ("prix", .mean)] none false)).map
        (fun gb => gb.colValues "produit") = some [Val.str "p", Val.str "q"] ∧
    (calculate_top_products exC8 2 "revenue").map (fun r => r.1.colValues "ca_total")
      = some [Val.num 10, Val.num 10] ∧
    (calculate_top_products exC8 2 "revenue").map (fun r => r.1.colValues "produit")
      = some [Val.str "q", Val.str "p"] ∧
    [Val.str "q", Val.str "p"] ≠ [Val.str "p", Val.str "q"] := by
  refine ⟨by decide, by decide, by decide, by decide⟩

theorem group_by_top_structure {df : Table} {kc rc qc pc : Column}
    (hk : df.getCol "produit" = some kc)
    (hr : df.getCol "revenue" = some rc)
    (hq : df.getCol "quantite" = some qc)
    (hp : df.getCol "prix" = some pc) :
    group_by df "produit" [("revenue", .sum), ("quantite", .sum), ("prix", .mean)]
        none false
      = some ⟨[
          ⟨"produit", kc.dtype, groupKeys kc.values⟩,
          ⟨"revenue", "float64", (groupKeys kc.values).map
            (fun k => aggApply .sum (groupRows kc.values rc.values k))⟩,
          ⟨"quantite", "float64", (groupKeys kc.values).map
            (fun k => aggApply .sum (groupRows kc.values qc.values k))⟩,
          ⟨"prix", "float64", (groupKeys kc.values).map
            (fun k => aggApply .mean (groupRows kc.values pc.values k))⟩]⟩ := by
  unfold group_by
  rw [hk]
  simp only [getAggCols, hr, hq, hp]
  rfl

theorem getD_map_lt {α β : Type} (f : α → β) (l : List α) (i : Nat) (d : β)
    (h : i < l.length) : (l.map f).getD i d = f (l.get ⟨i, h⟩) := by
  rw [List.getD_eq_getElem?_getD, List.getElem?_map,
    List.getElem?_eq_getElem h]
  rfl

theorem eq_map_numsOf : ∀ {vs : List Val},
    (∀ v ∈ vs, ∃ q : ℚ, v = Val.num q) → vs = (numsOf vs).map Val.num
  | [], _ => rfl
  | v :: vs, h => by
      rcases h v (List.mem_cons_self _ _) with ⟨q, rfl⟩
      have htail := eq_map_numsOf (fun w hw => h w (List.mem_cons_of_mem _ hw))
      simp only [numsOf, List.filterMap_cons] at htail ⊢
      rw [show Val.toNum (Val.num q) = some q from rfl]
      simpa [numsOf] using htail

theorem pairwise_num_desc {qs : List ℚ}
    (h : (qs.map Val.num).Pairwise (fun a b => valLtB a b = false)) :
    qs.Pairwise (fun a b => b ≤ a) := by
  rw [List.pairwise_map] at h
  refine h.imp ?_
  intro a b hab
  simp only [valLtB, decide_eq_false_iff_not] at hab
  exact not_lt.mp hab

theorem colValues_takeRows (s : Table) (c : String) (m : Nat) :
    (s.takeRows m).colValues c = (s.colValues c).take m := by
  simp only [Table.takeRows, Table.colValues, getCol_map_values]
  cases s.getCol c <;> simp

theorem nrows_takeRows (s : Table) (m : Nat) (hne : s.cols ≠ []) :
    (s.takeRows m).nrows = min m s.nrows := by
  cases hcols : s.cols with
  | nil => exact absurd hcols hne
  | cons c cs =>
      simp [Table.takeRows, Table.nrows, hcols, List.length_take]

theorem nrows_withRows (u : Table) (rows : List (List Val)) (hne : u.cols ≠ []) :
    (u.withRows rows).nrows = rows.length := by
  cases hcols : u.cols with
  | nil => exact absurd hcols hne
  | cons c cs => simp [Table.withRows, Table.nrows, hcols, withRowsGo]

theorem cols_withRows_ne_nil (u : Table) (rows : List (List Val))
    (hne : u.cols ≠ []) : (u.withRows rows).cols ≠ [] := by
  cases hcols : u.cols with
  | nil => exact absurd hcols hne
  | cons c cs => simp [Table.withRows, hcols, withRowsGo]

theorem length_rowsList (u : Table) : u.rowsList.length = u.nrows := by
  simp [Table.rowsList]

/-- The behaviour of `sort_values(ascending=False)` followed by `head(n)` on
a frame whose sort column holds only numeric values: the result has
`min n nrows` rows and the sort column is numeric and descending. -/
theorem sort_take_spec (u : Table) (cnm : String) (k n : Nat)
    (hne : u.cols ≠ [])
    (hidx : u.colIdx cnm = some k)
    (hget : ∀ rows : List (List Val),
      (u.withRows rows).colValues cnm = rows.map (fun r => r.getD k .missing))
    (hnum : ∀ r ∈ u.rowsList, ∃ q : ℚ, r.getD k .missing = Val.num q) :
    ((sort_values u cnm false).takeRows n).nrows = min n u.nrows ∧
    ∃ qs : List ℚ,
      ((sort_values u cnm false).takeRows n).colValues cnm = qs.map Val.num ∧
      qs.Pairwise (fun a b => b ≤ a) := by
  have hperm := perm_sortByLt (rowKeyLt k) u.rowsList
  have hpres : u.rowsList.filter
      (fun r => !(r.getD k .missing).isMissing) = u.rowsList := by
    rw [List.filter_eq_self]
    intro r hr
    rcases hnum r hr with ⟨q, hq⟩
    rw [hq]
    rfl
  have habs : u.rowsList.filter
      (fun r => (r.getD k .missing).isMissing) = [] := by
    rw [List.filter_eq_nil_iff]
    intro r hr
    rcases hnum r hr with ⟨q, hq⟩
    rw [hq]
    simp [Val.isMissing]
  have hsv : sort_values u cnm false
      = u.withRows ((sortByLt (rowKeyLt k) u.rowsList).reverse) := by
    unfold sort_values
    rw [hidx]
    simp only [Bool.false_eq_true, if_false, hpres, habs, List.append_nil]
  have hlen : (sortByLt (rowKeyLt k) u.rowsList).reverse.length = u.nrows := by
    rw [List.length_reverse, hperm.length_eq, length_rowsList]
  constructor
  · rw [hsv, nrows_takeRows _ _ (cols_withRows_ne_nil u _ hne),
      nrows_withRows u _ hne, hlen]
  · have hcolvals : ((sort_values u cnm false).takeRows n).colValues cnm
        = ((sortByLt (rowKeyLt k) u.rowsList).reverse.map
            (fun r => r.getD k .missing)).take n := by
      rw [hsv, colValues_takeRows, hget]
    have hmemnum : ∀ v ∈ ((sortByLt (rowKeyLt k) u.rowsList).reverse.map
        (fun r => r.getD k .missing)).take n, ∃ q : ℚ, v = Val.num q := by
      intro v hv
      have hv' := List.mem_of_mem_take hv
      rcases List.mem_map.mp hv' with ⟨r, hr, rfl⟩
      exact hnum r (hperm.mem_iff.mp (List.mem_reverse.mp hr))
    have hpw : ((sortByLt (rowKeyLt k) u.rowsList).reverse.map
        (fun r => r.getD k .missing)).Pairwise (fun a b => valLtB a b = false) := by
      rw [List.pairwise_map, List.pairwise_reverse]
      exact pairwise_sortByLt (rowKeyLt k)
        (fun a b h => valLtB_asymm _ _ h)
        (fun a b c h => valLtB_or _ _ _ h)
        u.rowsList
    have hpwtake := hpw.sublist (List.take_sublist n _)
    refine ⟨numsOf (((sortByLt (rowKeyLt k) u.rowsList).reverse.map
        (fun r => r.getD k .missing)).take n), ?_, ?_⟩
    · rw [hcolvals]
      exact eq_map_numsOf hmemnum
    · apply pairwise_num_desc
      rw [← eq_map_numsOf hmemnum]
      exact hpwtake

/-- C8 (amended): `calculate_top_products` returns `min top_n (number of
distinct products)` rows, sorted in descending order of the chosen metric
(total revenue for `metric = 'revenue'`, total quantity otherwise); ties
between products of equal metric value appear in **reversed** aggregation
order, because pandas `sort_values(ascending=False)` reverses a stable
ascending ordering — see the counterexample for the reversal. -/
theorem calculate_top_products_spec :
    ∀ (t r df : Table) (top_n : Nat) (metric : String),
      calculate_top_products t top_n metric = some (r, df) →
      r.nrows = min top_n (groupKeys (df.colValues "produit")).length ∧
      ∃ qs : List ℚ,
        r.colValues (if metric = "revenue" then "ca_total" else "quantite_totale")
          = qs.map Val.num ∧ qs.Pairwise (fun a b => b ≤ a) := by
  intro t r df top_n metric h
  unfold calculate_top_products at h
  cases hdf : ensureRevenue t with
  | none => rw [hdf] at h; cases h
  | some df' =>
  rw [hdf] at h
  simp only [Option.pure_def, Option.bind_eq_bind, Option.some_bind] at h
  cases hk : df'.getCol "produit" with
  | none => simp [group_by, hk] at h
  | some kc =>
  cases hrc : df'.getCol "revenue" with
  | none => simp [group_by, getAggCols, hk, hrc] at h
  | some rc =>
  cases hqc : df'.getCol "quantite" with
  | none => simp [group_by, getAggCols, hk, hrc, hqc] at h
  | some qc =>
  cases hpc : df'.getCol "prix" with
  | none => simp [group_by, getAggCols, hk, hrc, hqc, hpc] at h
  | some pc =>
  rw [group_by_top_structure hk hrc hqc hpc] at h
  simp only [Option.some_bind, Option.some.injEq, Prod.mk.injEq] at h
  obtain ⟨hr_eq, hdf_eq⟩ := h
  subst hdf_eq
  subst hr_eq
  rw [colValues_eq hk]
  by_cases hm : metric = "revenue"
  · simp only [hm, if_pos rfl]
    have hspec := sort_take_spec
      (⟨[⟨"produit", kc.dtype, groupKeys kc.values⟩,
         ⟨"ca_total", "float64", (groupKeys kc.values).map
           (fun kk => aggApply .sum (groupRows kc.values rc.values kk))⟩,
         ⟨"quantite_totale", "float64", (groupKeys kc.values).map
           (fun kk => aggApply .sum (groupRows kc.values qc.values kk))⟩,
         ⟨"prix_moyen", "float64", (groupKeys kc.values).map
           (fun kk => aggApply .mean (groupRows kc.values pc.values kk))⟩]⟩)
      "ca_total" 1 top_n (by intro hc; cases hc) rfl (fun rows => rfl) ?_
    · exact hspec
    · intro rr hrr
      rcases List.mem_map.mp hrr with ⟨i, hi, rfl⟩
      have hi' : i < (groupKeys kc.values).length := by
        have := List.mem_range.mp hi
        exact this
      refine ⟨(numsOf (groupRows kc.values rc.values
        ((groupKeys kc.values).get ⟨i, hi'⟩))).sum, ?_⟩
      show ((groupKeys kc.values).map
        (fun kk => aggApply .sum (groupRows kc.values rc.values kk))).getD i .missing
          = _
      rw [getD_map_lt _ _ _ _ hi']
      rfl
  · simp only [if_neg hm]
    have hspec := sort_take_spec
      (⟨[⟨"produit", kc.dtype, groupKeys kc.values⟩,
         ⟨"ca_total", "float64", (groupKeys kc.values).map
           (fun kk => aggApply .sum (groupRows kc.values rc.values kk))⟩,
         ⟨"quantite_totale", "float64", (groupKeys kc.values).map
           (fun kk => aggApply .sum (groupRows kc.values qc.values kk))⟩,
         ⟨"prix_moyen", "float64", (groupKeys kc.values).map
           (fun kk => aggApply .mean (groupRows kc.values pc.values kk))⟩]⟩)
      "quantite_totale" 2 top_n (by intro hc; cases hc) rfl (fun rows => rfl) ?_
    · simpa [hm] using hspec
    · intro rr hrr
      rcases List.mem_map.mp hrr with ⟨i, hi, rfl⟩
      have hi' : i < (groupKeys kc.values).length := by
        have := List.mem_range.mp hi
        exact this
      refine ⟨(numsOf (groupRows kc.values qc.values
        ((groupKeys kc.values).get ⟨i, hi'⟩))).sum, ?_⟩
      show ((groupKeys kc.values).map
        (fun kk => aggApply .sum (groupRows kc.values qc.values kk))).getD i .missing
          = _
      rw [getD_map_lt _ _ _ _ hi']
      rfl

/-- The concrete result of `calculate_top_products exC8 2 "revenue"`. -/
def exC8top : Table := ⟨[
  ⟨"produit", "object", [.str "q", .str "p"]⟩,
  ⟨"ca_total", "float64", [.num 10, .num 10]⟩,
  ⟨"quantite_totale", "float64", [.num 2, .num 1]⟩,
  ⟨"prix_moyen", "float64", [.num 5, .num 10]⟩]⟩

/-- Witness: the frame-effect equations of `aggregator_frame_effects`
evaluated on concrete tables — `calculate_kpis` on `exKpi`, and the guarded
mutation direction of `calculate_top_products` on `exC8` (which has `prix`
and `quantite` but no `revenue` column). -/
theorem aggregator_frame_effects_witness :
    (calculate_kpis exKpi).2 = addRevenue exKpi ∧
      (addRevenue exC8 : Table) = addRevenue exC8 :=
  ⟨aggregator_frame_effects.1 exKpi (by decide) (by decide),
    aggregator_frame_effects.2.2.2.2.2.2.1 exC8 exC8top (addRevenue exC8) 2 "revenue"
      (by decide) (by decide) (by decide) (by decide)⟩

/-- Witness: `calculate_top_products_spec` applied at the concrete table
`exC8` with `top_n = 2`. -/
theorem calculate_top_products_spec_witness :
    exC8top.nrows = min 2 (groupKeys ((addRevenue exC8).colValues "produit")).length :=
  (calculate_top_products_spec exC8 exC8top (addRevenue exC8) 2 "revenue"
    (by decide)).1

/-! ### Validator (`data_validator.py`) -/

/-- `settings.MAX_MISSING_PERCENTAGE` (config.py). -/
def MAX_MISSING_PERCENTAGE : ℚ := 1 / 2

/-- `settings.MIN_DATA_ROWS` (config.py). -/
def MIN_DATA_ROWS : Nat := 1

/-- The findings the validator renders as error/warning strings; each
constructor carries the structured data of the corresponding message. -/
inductive VError where
  | missingColumns (missing found : List String)
  | invalidType (column expected actual : String)
  | excessiveMissing (column : String) (pct : ℚ) (count total : Nat)
  | duplicateRows (count total : Nat)
  | rangeError (column : String) (invalidCount : Nat) (lo hi : Option ℚ)
  | insufficientData (rows minRequired : Nat)
deriving DecidableEq, Repr

/-- The `type_mapping` dict of `_validate_column_types`; an unknown expected
type maps to itself. -/
def typeMapping (expected : String) : List String :=
  match expected with
  | "int" => ["int64", "int32", "int16", "int8"]
  | "float" => ["float64", "float32", "int64", "int32"]
  | "str" => ["object"]
  | "string" => ["object"]
  | "datetime" => ["datetime64[ns]"]
  | "bool" => ["bool"]
  | "category" => ["category"]
  | other => [other]

/-- `_validate_required_columns`: all absent required columns are collected
into a single `MissingColumnsError` (not fail-fast). -/
def requiredErrors (t : Table) (rs : List String) : List VError :=
  let missing := rs.filter (fun c => c ∉ t.names)
  if missing.isEmpty then [] else [.missingColumns missing t.names]

/-- `_validate_column_types`: one error per present column whose storage
dtype is not accepted for the declared type; absent columns are skipped. -/
def typeErrors (t : Table) (cts : List (String × String)) : List VError :=
  cts.filterMap (fun p =>
    match t.getCol p.1 with
    | none => none
    | some col =>
        if col.dtype ∈ typeMapping p.2 then none
        else some (.invalidType p.1 p.2 col.dtype))

/-- `_check_missing_values`: one finding per column whose missing-cell
percentage exceeds the configured threshold. -/
def missingWarnings (t : Table) : List VError :=
  t.cols.filterMap (fun col =>
    let mc := countMissing col.values
    if 0 < mc then
      let pct : ℚ := (mc : ℚ) / (t.nrows : ℚ) * 100
      if MAX_MISSING_PERCENTAGE * 100 < pct then
        some (.excessiveMissing col.name pct mc t.nrows)
      else none
    else none)

/-- `df.duplicated().sum()`: the number of rows equal to an earlier row. -/
def countDupsGo (seen : List (List Val)) : List (List Val) → Nat
  | [] => 0
  | r :: rs => (if r ∈ seen then 1 else 0) + countDupsGo (r :: seen) rs

def duplicatedCount (t : Table) : Nat := countDupsGo [] t.rowsList

/-- `_check_duplicates` finding. -/
def duplicateFindings (t : Table) : List VError :=
  if 0 < duplicatedCount t then [.duplicateRows (duplicatedCount t) t.nrows] else []

/-- `_validate_value_ranges`: per present column with at least one
non-missing value, count the numeric values outside the inclusive bounds
(missing values are dropped first; the Python path comparing non-numeric
values against a bound raises `TypeError` and is not exercised). -/
def rangeCount (col : Column) (lohi : Option ℚ × Option ℚ) : Nat :=
  (match lohi.1 with
   | some lo => ((numsOf col.values).filter (fun x => x < lo)).length
   | none => 0) +
  (match lohi.2 with
   | some hi => ((numsOf col.values).filter (fun x => hi < x)).length
   | none => 0)

def rangeErrors (t : Table) (vrs : List (String × Option ℚ × Option ℚ)) : List VError :=
  vrs.filterMap (fun p =>
    match t.getCol p.1 with
    | none => none
    | some col =>
        if (col.values.filter (fun v => !v.isMissing)).isEmpty then none
        else if 0 < rangeCount col p.2 then
          some (.rangeError p.1 (rangeCount col p.2) p.2.1 p.2.2)
        else none)

/-- `_validate_min_rows`. -/
def minRowsErrors (t : Table) (m : Nat) : List VError :=
  if t.nrows < m then [.insufficientData t.nrows m] else []

/-- The metrics record of `_calculate_metrics`.  (`memory_usage_mb` is a
runtime-environment measurement and is not part of the data model.) -/
structure Metrics where
  n_rows : Nat
  n_columns : Nat
  total_cells : Nat
  missing_cells : Nat
  missing_percentage : ℚ
  duplicate_rows : Nat
  column_types : List (String × String)
deriving DecidableEq, Repr

/-- `_calculate_metrics`: the missing percentage is guarded by
`if total_cells > 0 else 0.0`. -/
def calculateMetrics (t : Table) : Metrics :=
  let total := t.nrows * t.ncols
  let missing := (t.cols.map (fun c => countMissing c.values)).sum
  { n_rows := t.nrows
    n_columns := t.ncols
    total_cells := total
    missing_cells := missing
    missing_percentage := if 0 < total then (missing : ℚ) / (total : ℚ) * 100 else 0
    duplicate_rows := duplicatedCount t
    column_types := t.cols.map (fun c => (c.name, c.dtype)) }

/-- The `ValidationResult` dataclass. -/
structure ValidationResult where
  is_valid : Bool
  errors : List VError
  warnings : List VError
  metrics : Metrics
deriving DecidableEq, Repr

/-- `DataValidator.validate(df, required_columns, column_types,
check_duplicates, check_missing, value_ranges, min_rows)` on a validator
constructed with `strict_mode`.  The six validations run in order; in strict
mode the missing-value and duplicate findings are appended to the error list
(at their position in the sequence), otherwise to the warning list.
Python truthiness: an empty `required_columns`/`column_types`/`value_ranges`
or `min_rows = 0` skips that validation.  `is_valid` is exactly the
emptiness of the error list. -/
def validate (t : Table) (required_columns : Option (List String))
    (column_types : Option (List (String × String)))
    (check_duplicates check_missing : Bool)
    (value_ranges : Option (List (String × Option ℚ × Option ℚ)))
    (min_rows : Option Nat) (strict_mode : Bool) : ValidationResult :=
  let e1 := match required_columns with
    | some rs => if rs.isEmpty then [] else requiredErrors t rs
    | none => []
  let e2 := match column_types with
    | some cts => if cts.isEmpty then [] else typeErrors t cts
    | none => []
  let w3 := if check_missing then missingWarnings t else []
  let w4 := if check_duplicates then duplicateFindings t else []
  let e5 := match value_ranges with
    | some vrs => if vrs.isEmpty then [] else rangeErrors t vrs
    | none => []
  let e6 := match min_rows with
    | some m => if m = 0 then [] else minRowsErrors t m
    | none => []
  let errors := e1 ++ e2 ++ (if strict_mode then w3 else [])
    ++ (if strict_mode then w4 else []) ++ e5 ++ e6
  let warnings := (if strict_mode then [] else w3) ++ (if strict_mode then [] else w4)
  { is_valid := errors.isEmpty
    errors := errors
    warnings := warnings
    metrics := calculateMetrics t }

/-- C4: `is_valid` is true exactly when the error list is empty; with strict
mode off the missing-value/duplicate findings (and hence the
`check_missing`/`check_duplicates` switches) never change the error list;
with strict mode on the warnings list is empty and the error list is, up to
the interleaving position of the quality findings, the non-strict error
list plus the non-strict warnings. -/
theorem validate_is_valid_spec :
    (∀ (t : Table) (rc : Option (List String)) (ct : Option (List (String × String)))
        (cd cm : Bool) (vr : Option (List (String × Option ℚ × Option ℚ)))
        (mr : Option Nat) (strict : Bool),
       (validate t rc ct cd cm vr mr strict).is_valid = true ↔
         (validate t rc ct cd cm vr mr strict).errors = []) ∧
    (∀ (t : Table) (rc : Option (List String)) (ct : Option (List (String × String)))
        (cd cm : Bool) (vr : Option (List (String × Option ℚ × Option ℚ)))
        (mr : Option Nat),
       (validate t rc ct cd cm vr mr false).errors
         = (validate t rc ct false false vr mr false).errors) ∧
    (∀ (t : Table) (rc : Option (List String)) (ct : Option (List (String × String)))
        (cd cm : Bool) (vr : Option (List (String × Option ℚ × Option ℚ)))
        (mr : Option Nat),
       (validate t rc ct cd cm vr mr true).warnings = [] ∧
       List.Perm (validate t rc ct cd cm vr mr true).errors
         ((validate t rc ct cd cm vr mr false).errors
           ++ (validate t rc ct cd cm vr mr false).warnings)) := by
  have hperm6 : ∀ a b c d e f : List VError,
      List.Perm (a ++ b ++ c ++ d ++ e ++ f)
        ((a ++ b ++ ([] : List VError) ++ ([] : List VError) ++ e ++ f) ++ (c ++ d)) := by
    intro a b c d e f
    simp only [List.append_nil, List.append_assoc]
    refine List.Perm.append_left a (List.Perm.append_left b ?_)
    have h : ((c ++ d) ++ (e ++ f)).Perm ((e ++ f) ++ (c ++ d)) :=
      List.perm_append_comm
    simpa [List.append_assoc] using h
  refine ⟨?_, ?_, ?_⟩
  · intro t rc ct cd cm vr mr strict
    simp only [validate]
    exact List.isEmpty_iff
  · intro t rc ct cd cm vr mr
    rfl
  · intro t rc ct cd cm vr mr
    refine ⟨rfl, ?_⟩
    simp only [validate]
    exact hperm6 _ _ _ _ _ _

def VError.isMissingColumns : VError → Bool
  | .missingColumns _ _ => true
  | _ => false

theorem no_mc_typeErrors (t : Table) (cts : List (String × String)) :
    (typeErrors t cts).filter VError.isMissingColumns = [] := by
  rw [List.filter_eq_nil_iff]
  intro x hx
  rcases List.mem_filterMap.mp hx with ⟨p, _, hfx⟩
  split at hfx
  · cases hfx
  · split at hfx
    · cases hfx
    · cases hfx
      exact Bool.false_ne_true

theorem no_mc_missingWarnings (t : Table) :
    (missingWarnings t).filter VError.isMissingColumns = [] := by
  rw [List.filter_eq_nil_iff]
  intro x hx
  rcases List.mem_filterMap.mp hx with ⟨col, _, hfx⟩
  simp only [missingWarnings] at hfx
  split at hfx
  · split at hfx
    · cases hfx
      exact Bool.false_ne_true
    · cases hfx
  · cases hfx

theorem no_mc_duplicateFindings (t : Table) :
    (duplicateFindings t).filter VError.isMissingColumns = [] := by
  unfold duplicateFindings
  split
  · rfl
  · rfl

theorem no_mc_rangeErrors (t : Table) (vrs : List (String × Option ℚ × Option ℚ)) :
    (rangeErrors t vrs).filter VError.isMissingColumns = [] := by
  rw [List.filter_eq_nil_iff]
  intro x hx
  rcases List.mem_filterMap.mp hx with ⟨p, _, hfx⟩
  split at hfx
  · cases hfx
  · split at hfx
    · cases hfx
    · split at hfx
      · cases hfx
        exact Bool.false_ne_true
      · cases hfx

theorem no_mc_minRowsErrors (t : Table) (m : Nat) :
    (minRowsErrors t m).filter VError.isMissingColumns = [] := by
  unfold minRowsErrors
  split
  · rfl
  · rfl

/-- C5: with a non-empty `required_columns` list of which at least one name
is absent, `validate` is invalid and its error list holds exactly one
`MissingColumns` finding, which lists **all** the absent names (in
`required_columns` order) at once. -/
theorem validate_missing_columns_spec :
    ∀ (t : Table) (rs : List String) (ct : Option (List (String × String)))
      (cd cm : Bool) (vr : Option (List (String × Option ℚ × Option ℚ)))
      (mr : Option Nat) (strict : Bool),
      rs ≠ [] → rs.filter (fun c => c ∉ t.names) ≠ [] →
      (validate t (some rs) ct cd cm vr mr strict).is_valid = false ∧
      (validate t (some rs) ct cd cm vr mr strict).errors.filter VError.isMissingColumns
        = [.missingColumns (rs.filter (fun c => c ∉ t.names)) t.names] := by
  intro t rs ct cd cm vr mr strict hrs hmiss
  have h1 : rs.isEmpty = false := by
    cases rs with
    | nil => exact absurd rfl hrs
    | cons a l => rfl
  have h2 : (rs.filter (fun c => c ∉ t.names)).isEmpty = false := by
    cases hm : rs.filter (fun c => c ∉ t.names) with
    | nil => exact absurd hm hmiss
    | cons a l => rfl
  have h3 : (if strict then (if cm then missingWarnings t else []) else
      ([] : List VError)).filter VError.isMissingColumns = [] := by
    split
    · split
      · exact no_mc_missingWarnings t
      · rfl
    · rfl
  have h4 : (if strict then (if cd then duplicateFindings t else []) else
      ([] : List VError)).filter VError.isMissingColumns = [] := by
    split
    · split
      · exact no_mc_duplicateFindings t
      · rfl
    · rfl
  have h5 : (match ct with
      | some cts => if cts.isEmpty then [] else typeErrors t cts
      | none => ([] : List VError)).filter VError.isMissingColumns = [] := by
    cases ct with
    | none => rfl
    | some cts =>
        show (if cts.isEmpty then [] else typeErrors t cts).filter
          VError.isMissingColumns = []
        split
        · rfl
        · exact no_mc_typeErrors t cts
  have h6 : (match vr with
      | some vrs => if vrs.isEmpty then [] else rangeErrors t vrs
      | none => ([] : List VError)).filter VError.isMissingColumns = [] := by
    cases vr with
    | none => rfl
    | some vrs =>
        show (if vrs.isEmpty then [] else rangeErrors t vrs).filter
          VError.isMissingColumns = []
        split
        · rfl
        · exact no_mc_rangeErrors t vrs
  have h7 : (match mr with
      | some m => if m = 0 then [] else minRowsErrors t m
      | none => ([] : List VError)).filter VError.isMissingColumns = [] := by
    cases mr with
    | none => rfl
    | some m =>
        show (if m = 0 then [] else minRowsErrors t m).filter
          VError.isMissingColumns = []
        split
        · rfl
        · exact no_mc_minRowsErrors t m
  constructor
  · simp only [validate, h1, Bool.false_eq_true, if_false]
    unfold requiredErrors
    simp only [h2, Bool.false_eq_true, if_false]
    rfl
  · simp only [validate, h1, Bool.false_eq_true, if_false]
    unfold requiredErrors
    simp only [h2, Bool.false_eq_true, if_false]
    simp only [List.filter_append, h3, h4, h5, h6, h7]
    simp [VError.isMissingColumns]

/-- Witness: a table with columns `date`, `product` validated against the
required set `{date, product, price}` is invalid with a single
`MissingColumns` error mentioning `price`. -/
theorem validate_missing_columns_spec_witness :
    (validate ⟨[⟨"date", "object", [.str "d"]⟩, ⟨"product", "object", [.str "p"]⟩]⟩
        (some ["date", "product", "price"]) none true true none none false).is_valid
      = false ∧
    (validate ⟨[⟨"date", "object", [.str "d"]⟩, ⟨"product", "object", [.str "p"]⟩]⟩
        (some ["date", "product", "price"]) none true true none none false).errors.filter
        VError.isMissingColumns
      = [.missingColumns ["price"] ["date", "product"]] := by
  have h := validate_missing_columns_spec
    ⟨[⟨"date", "object", [.str "d"]⟩, ⟨"product", "object", [.str "p"]⟩]⟩
    ["date", "product", "price"] none true true none none false
    (by decide) (by decide)
  exact ⟨h.1, h.2.trans (by decide)⟩

/-- C10: `validate` always returns the metrics of `_calculate_metrics`, and
on a frame with zero cells (zero rows or zero columns) the
`missing_percentage` metric is 0 — the division by the cell count is
guarded, so validating an empty table does not fail. -/
theorem validate_metrics_spec :
    (∀ (t : Table) (rc : Option (List String)) (ct : Option (List (String × String)))
        (cd cm : Bool) (vr : Option (List (String × Option ℚ × Option ℚ)))
        (mr : Option Nat) (strict : Bool),
       (validate t rc ct cd cm vr mr strict).metrics = calculateMetrics t) ∧
    (∀ t : Table, t.nrows * t.ncols = 0 →
       (calculateMetrics t).missing_percentage = 0) := by
  constructor
  · intro t rc ct cd cm vr mr strict
    rfl
  · intro t h
    simp only [calculateMetrics, h]
    rfl

/-- Witness: the metrics guard evaluated at the empty table. -/
theorem validate_metrics_spec_witness :
    (calculateMetrics (⟨[]⟩ : Table)).missing_percentage = 0 :=
  validate_metrics_spec.2 ⟨[]⟩ (by decide)

/-! ### StatisticsEngine: strong correlations (`statistics.py`,
`find_strong_correlations`)

The correlation matrix is `df[numeric].corr(method)`, whose entries are real
numbers (Pearson/Spearman/Kendall coefficients involve square roots and are
not rational in general); the scanning/filtering/sorting logic of
`find_strong_correlations` is uniform in the matrix entries, so the matrix
is taken as an argument indexed by column positions, and the properties are
proved for **every** matrix. -/

/-- One row of the strict-upper-triangle scan: Python's
`for j in range(i + 1, n)` collecting `(col_i, col_j, corr[i][j])` when
`abs(corr_value) >= threshold`. -/
def upperPairsFrom (cols : List String) (corr : Nat → Nat → ℚ) (θ : ℚ)
    (i : Nat) : List (String × String × ℚ) :=
  (List.range' (i + 1) (cols.length - (i + 1))).filterMap (fun j =>
    if θ ≤ |corr i j| then some (cols.getD i "", cols.getD j "", corr i j) else none)

/-- The collected strong pairs, in scan order (`i` outer, `j` inner). -/
def strongPairs (cols : List String) (corr : Nat → Nat → ℚ) (θ : ℚ) :
    List (String × String × ℚ) :=
  ((List.range cols.length).map (upperPairsFrom cols corr θ)).flatten

/-- `find_strong_correlations`: scan the strict upper triangle once, then
`strong_corr.sort(key=lambda x: abs(x[2]), reverse=True)` — Python's sort is
stable and `reverse=True` does **not** reverse ties. -/
def find_strong_correlations (cols : List String) (corr : Nat → Nat → ℚ)
    (threshold : ℚ) : List (String × String × ℚ) :=
  sortByLt (fun a b => |b.2.2| < |a.2.2|) (strongPairs cols corr threshold)

theorem mem_strongPairs (cols : List String) (corr : Nat → Nat → ℚ) (θ : ℚ)
    (p : String × String × ℚ) :
    p ∈ strongPairs cols corr θ ↔
      ∃ i j : Nat, i < j ∧ j < cols.length ∧
        p = (cols.getD i "", cols.getD j "", corr i j) ∧ θ ≤ |corr i j| := by
  unfold strongPairs upperPairsFrom
  rw [List.mem_flatten]
  constructor
  · rintro ⟨l, hl, hp⟩
    rcases List.mem_map.mp hl with ⟨i, hi, rfl⟩
    rcases List.mem_filterMap.mp hp with ⟨j, hj, hfj⟩
    have hj' := List.mem_range'_1.mp hj
    split at hfj
    · cases hfj
      exact ⟨i, j, by omega, by omega, rfl, by assumption⟩
    · cases hfj
  · rintro ⟨i, j, hij, hjn, rfl, hθ⟩
    refine ⟨_, List.mem_map.mpr ⟨i, List.mem_range.mpr (by omega), rfl⟩, ?_⟩
    refine List.mem_filterMap.mpr ⟨j, List.mem_range'_1.mpr ⟨by omega, by omega⟩, ?_⟩
    rw [if_pos hθ]

/-- C7: `find_strong_correlations` returns exactly the strict-upper-triangle
pairs `(i, j)` with `i < j` (no self-pairs, each unordered pair at most
once) whose absolute correlation is at least the threshold — as a
permutation of the single scan, with the membership characterization — and
the result is sorted in descending order of absolute correlation. -/
theorem find_strong_correlations_spec :
    ∀ (cols : List String) (corr : Nat → Nat → ℚ) (θ : ℚ),
      2 ≤ cols.length →
      List.Perm (find_strong_correlations cols corr θ) (strongPairs cols corr θ) ∧
      (∀ p : String × String × ℚ,
        p ∈ find_strong_correlations cols corr θ ↔
          ∃ i j : Nat, i < j ∧ j < cols.length ∧
            p = (cols.getD i "", cols.getD j "", corr i j) ∧ θ ≤ |corr i j|) ∧
      (find_strong_correlations cols corr θ).Pairwise
        (fun a b => |b.2.2| ≤ |a.2.2|) := by
  intro cols corr θ _
  have hperm : List.Perm (find_strong_correlations cols corr θ)
      (strongPairs cols corr θ) := perm_sortByLt _ _
  refine ⟨hperm, ?_, ?_⟩
  · intro p
    rw [hperm.mem_iff]
    exact mem_strongPairs cols corr θ p
  · have hpw := pairwise_sortByLt (fun a b : String × String × ℚ => |b.2.2| < |a.2.2|)
      (fun a b h => by
        simp only [decide_eq_true_eq] at h
        simp only [decide_eq_false_iff_not]
        exact not_lt.mpr h.le)
      (fun a b c h => by
        simp only [decide_eq_true_eq] at h ⊢
        rcases lt_or_le |b.2.2| |a.2.2| with h1 | h1
        · exact Or.inl h1
        · exact Or.inr (lt_of_lt_of_le h h1))
      (strongPairs cols corr θ)
    refine hpw.imp ?_
    intro a b hab
    simp only [decide_eq_false_iff_not] at hab
    exact not_lt.mp hab

/-- Witness: `find_strong_correlations_spec` applied to a concrete
two-column matrix with correlation 1 and threshold 1/2. -/
theorem find_strong_correlations_spec_witness :
    (find_strong_correlations ["x", "y"] (fun _ _ => 1) (1 / 2)).Pairwise
      (fun a b => |b.2.2| ≤ |a.2.2|) :=
  (find_strong_correlations_spec ["x", "y"] (fun _ _ => 1) (1 / 2) (by decide)).2.2

/-! ### Result cache (`utils/cache.py`)

The Redis client is modelled as a pure oracle giving the outcome of each
network operation — a value, or a raised exception (connection failure,
timeout).  The embedded `get`/`set`/`cached` are **total** functions into
`Option`/`Bool`/the value type: every client exception is caught by the
corresponding `try/except` in the source, so no error channel reaches the
caller. -/

/-- Outcome of one operation of the underlying Redis client. -/
inductive StoreResult (α : Type) where
  | ok (a : α)
  | exn (msg : String)

/-- The client's behaviour during one call (`ping`, `get`, `setex`). -/
structure RedisClient where
  ping : StoreResult Unit
  getRaw : String → StoreResult (Option String)
  setex : String → Nat → String → StoreResult Unit

/-- The `RedisCache` state: the configuration switch, the client (already
`None` when `CACHE_ENABLED` is off or the initial connection failed), and
the JSON codec (`json.loads` may raise — `none`). -/
structure RedisCache (V : Type) where
  cacheEnabled : Bool
  client : Option RedisClient
  decodeJson : String → Option V
  encodeJson : V → String

/-- `settings.CACHE_TTL`. -/
def CACHE_TTL : Nat := 3600

/-- `RedisCache.is_available`: configuration on, client present, ping
answers (a ping exception is caught and yields `False`). -/
def RedisCache.is_available {V : Type} (c : RedisCache V) : Bool :=
  c.cacheEnabled &&
    (match c.client with
     | none => false
     | some cl =>
         match cl.ping with
         | .ok _ => true
         | .exn _ => false)

/-- `RedisCache.get`: `None` when unavailable, on a miss, on a read
exception, or when deserialization fails — never an error. -/
def RedisCache.get {V : Type} (c : RedisCache V) (key : String) : Option V :=
  if !c.is_available then none
  else
    match c.client with
    | none => none
    | some cl =>
        match cl.getRaw key with
        | .exn _ => none
        | .ok none => none
        | .ok (some s) => c.decodeJson s

/-- `ttl = ttl or settings.CACHE_TTL` (Python truthiness: `None` and `0`
both fall back to the default). -/
def resolveTtl (ttl : Option Nat) : Nat :=
  match ttl with
  | some n => if n = 0 then CACHE_TTL else n
  | none => CACHE_TTL

/-- `RedisCache.set`: `False` when unavailable or on a write exception,
`True` on success — never an error. -/
def RedisCache.set {V : Type} (c : RedisCache V) (key : String) (value : V)
    (ttl : Option Nat) : Bool :=
  if !c.is_available then false
  else
    match c.client with
    | none => false
    | some cl =>
        match cl.setex key (resolveTtl ttl) (c.encodeJson value) with
        | .ok _ => true
        | .exn _ => false

/-- One call through the wrapper produced by the `cached` decorator (the
`cache_analysis_result` decorator has the same shape with a fixed key):
compute directly when the cache is unavailable; otherwise return a hit, or
compute, attempt to store (the boolean outcome is discarded) and return the
computed value. -/
def cachedCall {V A : Type} (c : RedisCache V) (cacheKey : String)
    (f : A → V) (x : A) (ttl : Option Nat) : V :=
  if !c.is_available then f x
  else
    match c.get cacheKey with
    | some v => v
    | none =>
        let result := f x
        let _ := c.set cacheKey result ttl
        result

/-- C9: under cache unavailability (disabled configuration, absent client
after a connection failure, failing ping) `get` returns `None` and `set`
returns `False`; a read/write exception from the client is caught and gives
the same `None`/`False`; and the memoizing wrapper always runs the
underlying computation when the cache is unavailable or the lookup misses —
cache failure degrades to compute-without-persisting, never an error. -/
theorem cache_unavailable_spec {V A : Type} :
    (∀ (c : RedisCache V) (key : String) (v : V) (ttl : Option Nat),
       c.is_available = false →
       c.get key = none ∧ c.set key v ttl = false) ∧
    (∀ (c : RedisCache V) (cl : RedisClient) (key : String) (v : V)
        (ttl : Option Nat) (m : String),
       c.client = some cl →
       (cl.getRaw key = .exn m → c.get key = none) ∧
       (cl.setex key (resolveTtl ttl) (c.encodeJson v) = .exn m →
         c.set key v ttl = false)) ∧
    (∀ (c : RedisCache V) (f : A → V) (key : String) (x : A) (ttl : Option Nat),
       c.is_available = false → cachedCall c key f x ttl = f x) ∧
    (∀ (c : RedisCache V) (f : A → V) (key : String) (x : A) (ttl : Option Nat),
       c.get key = none → cachedCall c key f x ttl = f x) := by
  refine ⟨?_, ?_, ?_, ?_⟩
  · intro c key v ttl h
    unfold RedisCache.get RedisCache.set
    rw [h]
    exact ⟨rfl, rfl⟩
  · intro c cl key v ttl m hcl
    constructor
    · intro hexn
      unfold RedisCache.get
      rw [hcl]
      split
      · rfl
      · show (match cl.getRaw key with
            | StoreResult.exn _ => none
            | StoreResult.ok none => none
            | StoreResult.ok (some s) => c.decodeJson s) = none
        rw [hexn]
    · intro hexn
      unfold RedisCache.set
      rw [hcl]
      split
      · rfl
      · show (match cl.setex key (resolveTtl ttl) (c.encodeJson v) with
            | StoreResult.ok _ => true
            | StoreResult.exn _ => false) = false
        rw [hexn]
  · intro c f key x ttl h
    unfold cachedCall
    rw [h]
    rfl
  · intro c f key x ttl h
    unfold cachedCall
    split
    · rfl
    · rw [h]

/-- A cache whose configuration switch is off (the shape `TestSettings`
produces). -/
def disabledCache : RedisCache Nat :=
  { cacheEnabled := false
    client := none
    decodeJson := fun _ => none
    encodeJson := fun _ => "" }

/-- Witness: on the disabled cache, `get` is `None`, `set` is `False`, and
the wrapper computes the value directly. -/
theorem cache_unavailable_spec_witness :
    disabledCache.get "analysis:abc:kpis" = none ∧
      disabledCache.set "analysis:abc:kpis" 7 none = false ∧
      cachedCall disabledCache "analysis:abc:kpis" (fun n => n + 1) 41 none = 42 := by
  have h1 := (@cache_unavailable_spec Nat Nat).1 disabledCache
    "analysis:abc:kpis" 7 none rfl
  have h3 := (@cache_unavailable_spec Nat Nat).2.2.1 disabledCache
    (fun n => n + 1) "analysis:abc:kpis" 41 none rfl
  exact ⟨h1.1, h1.2, h3⟩

end ProjetAnalyse
